import Mathlib

/-!
Formal model of the ursa-major-choir-etl core (src/etl of the repository),
a shallow embedding in Lean 4 of the Python modules dim_chorister.py,
dim_song.py, fact_attendance.py, fact_song_time.py and marts.py.

Modelling conventions, used consistently below:

* A spreadsheet cell (Python Any) is a `Val`: Python None, a str, or a
  numeric cell (int/float), the latter modelled as a rational number.
* Python floats are modelled by rationals; `pyFloat` models CPython
  float() on finite decimal literals (optional sign, digits, decimal
  point, exponent).  The inf/nan spellings, underscore digit separators
  and non-ASCII digits accepted by CPython are out of scope and parse to
  none; no claim depends on them.
* Python str(number) rendering is abstracted by `numRepr`; no claim's
  statement depends on its exact output.
* Python str.strip() is `pyStrip` (Unicode whitespace approximated by
  Char.isWhitespace), str.lower() is `asciiLower` (ASCII-only; every
  string a claim evaluates is ASCII or is passed through unchanged).
* Python string comparison is code-point lexicographic: `lexLt`/`strLt`.
* A raised RuntimeError is modelled as the `EtlError` value carrying the
  data interpolated into the corresponding message f-string, and a
  function that may raise returns `Except EtlError`.
* A Python dict is an association list with update-in-place insert
  (`alInsert`) and first-match lookup (`alGet?`), which matches dict
  lookup/insert observably.
* datetime.now timestamps are passed in as an explicit `nowIso` argument.
-/

namespace ChoirEtl

/-- Cell values handed to the builders: Python None, str, or a numeric
cell (int/float modelled as a rational). -/
inductive Val where
  | null
  | str (s : String)
  | num (q : ℚ)
deriving DecidableEq

/-- Abstract stand-in for Python str() applied to a numeric cell; claims
never depend on the concrete rendering of numbers. -/
def numRepr (q : ℚ) : String := toString q

/-- Characters of a string with leading and trailing whitespace removed,
modelling Python str.strip(). -/
def stripChars (l : List Char) : List Char :=
  ((l.dropWhile Char.isWhitespace).reverse.dropWhile Char.isWhitespace).reverse

/-- Python str.strip(). -/
def pyStrip (s : String) : String := String.mk (stripChars s.data)

/-- Lower-case an ASCII letter, the identity elsewhere. -/
def asciiLowerChar (c : Char) : Char :=
  if 65 ≤ c.toNat ∧ c.toNat ≤ 90 then Char.ofNat (c.toNat + 32) else c

/-- Python str.lower(), restricted to ASCII letters. -/
def asciiLower (s : String) : String := String.mk (s.data.map asciiLowerChar)

/-- Code-point lexicographic order on character lists: exactly Python's
ordering of str values. -/
def lexLt : List Char → List Char → Bool
  | [], [] => false
  | [], _ :: _ => true
  | _ :: _, [] => false
  | x :: xs, y :: ys =>
    if x.toNat < y.toNat then true
    else if y.toNat < x.toNat then false
    else lexLt xs ys

/-- Python comparison a < b on strings. -/
def strLt (a b : String) : Bool := lexLt a.data b.data

/-- Does the list start with the given pattern of characters? -/
def listHasStart : List Char → List Char → Bool
  | [], _ => true
  | _ :: _, [] => false
  | p :: ps, c :: cs => p == c && listHasStart ps cs

/-- Numeric value of a digit run. -/
def digitsVal (l : List Char) : ℕ :=
  l.foldl (fun a c => 10 * a + (c.toNat - 48)) 0

/-- Split a character list into its leading run of ASCII digits and the
rest. -/
def takeDigits (l : List Char) : List Char × List Char :=
  (l.takeWhile Char.isDigit, l.dropWhile Char.isDigit)

/-- Model of CPython float() on an already comma-handled string: optional
surrounding whitespace, optional sign, decimal digits with optional
fraction, optional exponent.  Returns none where CPython raises
ValueError (see the file comment for out-of-scope spellings). -/
def pyFloat (s : String) : Option ℚ :=
  let cs := stripChars s.data
  let sgnCs : ℤ × List Char :=
    match cs with
    | '+' :: r => (1, r)
    | '-' :: r => (-1, r)
    | r => (1, r)
  let sgn := sgnCs.1
  let (ip, rest1) := takeDigits sgnCs.2
  let fpRest : List Char × List Char :=
    match rest1 with
    | '.' :: r => takeDigits r
    | r => ([], r)
  let fp := fpRest.1
  if ip = [] ∧ fp = [] then none
  else
    let n : ℤ := sgn * (digitsVal ip * 10 ^ fp.length + digitsVal fp)
    let d : ℕ := 10 ^ fp.length
    match fpRest.2 with
    | [] => some (mkRat n d)
    | e :: r =>
      if e = 'e' ∨ e = 'E' then
        let esgnR : Bool × List Char :=
          match r with
          | '+' :: r2 => (false, r2)
          | '-' :: r2 => (true, r2)
          | r2 => (false, r2)
        let (ed, r3) := takeDigits esgnR.2
        if ed = [] ∨ r3 ≠ [] then none
        else if esgnR.1 then some (mkRat n (d * 10 ^ digitsVal ed))
        else some (mkRat (n * 10 ^ digitsVal ed) d)
      else none

/-- Truncation toward zero, modelling Python int() on a float. -/
def truncZ (q : ℚ) : ℤ := if q < 0 then -((-q).floor) else q.floor

/-- Day count of a proleptic Gregorian date relative to 1970-01-01
(standard civil-from-days arithmetic), used for the spreadsheet serial
date branch of the date normalizer. -/
def daysFromCivil (y : ℤ) (m d : ℕ) : ℤ :=
  let yAdj : ℤ := if m ≤ 2 then y - 1 else y
  let era : ℤ := Int.fdiv yAdj 400
  let yoe : ℕ := (yAdj - era * 400).toNat
  let mp : ℕ := if 2 < m then m - 3 else m + 9
  let doy : ℕ := (153 * mp + 2) / 5 + d - 1
  let doe : ℕ := yoe * 365 + yoe / 4 - yoe / 100 + doy
  era * 146097 + (doe : ℤ) - 719468

/-- Inverse of daysFromCivil: the proleptic Gregorian date of a day
count. -/
def civilFromDays (z : ℤ) : ℤ × ℕ × ℕ :=
  let zs : ℤ := z + 719468
  let era : ℤ := Int.fdiv zs 146097
  let doe : ℕ := (zs - era * 146097).toNat
  let yoe : ℕ := (doe - doe / 1460 + doe / 36524 - doe / 146096) / 365
  let y : ℤ := (yoe : ℤ) + era * 400
  let doy : ℕ := doe - (365 * yoe + yoe / 4 - yoe / 100)
  let mp : ℕ := (5 * doy + 2) / 153
  let d : ℕ := doy - (153 * mp + 2) / 5 + 1
  let m : ℕ := if mp < 10 then mp + 3 else mp - 9
  (if m ≤ 2 then y + 1 else y, m, d)

/-- Gregorian leap-year rule. -/
def isLeap (y : ℕ) : Bool := (y % 4 = 0 && y % 100 ≠ 0) || y % 400 = 0

/-- Number of days in a month. -/
def daysInMonth (y m : ℕ) : ℕ :=
  if m = 2 then (if isLeap y then 29 else 28)
  else if m = 4 ∨ m = 6 ∨ m = 9 ∨ m = 11 then 30
  else 31

/-- Validity of (year, month, day) exactly as Python datetime(y, m, d):
raises ValueError outside these bounds. -/
def validYmd (y m d : ℕ) : Bool :=
  1 ≤ y && y ≤ 9999 && 1 ≤ m && m ≤ 12 && 1 ≤ d && d ≤ daysInMonth y m

/-- Zero-pad a numeral to the given width. -/
def zeroPad (width : ℕ) (s : String) : String :=
  if width ≤ s.length then s
  else String.mk (List.replicate (width - s.length) '0' ++ s.data)

/-- strftime percent-Y-m-d formatting (year zero-padded to four digits,
month and day to two). -/
def formatIso (y m d : ℕ) : String :=
  zeroPad 4 (toString y) ++ "-" ++ zeroPad 2 (toString m) ++ "-" ++ zeroPad 2 (toString d)

/-- Does the string match the anchored pattern of four digits, dash, two
digits, dash, two digits, as a prefix (re.match of the ISO pattern)? -/
def isoLike (cs : List Char) : Bool :=
  match cs with
  | a :: b :: c :: d :: '-' :: e :: f :: '-' :: g :: h :: _ =>
    a.isDigit && b.isDigit && c.isDigit && d.isDigit &&
      e.isDigit && f.isDigit && g.isDigit && h.isDigit
  | _ => false

/-- Full-anchored match of the day.month.year pattern: one or two digits,
dot, one or two digits, dot, two to four digits, end of string.  Returns
(day, month, rawYear). -/
def parseDmy (s : String) : Option (ℕ × ℕ × ℕ) :=
  let (d1, r1) := takeDigits s.data
  if d1.length = 0 ∨ 2 < d1.length then none
  else
    match r1 with
    | '.' :: r2 =>
      let (d2, r3) := takeDigits r2
      if d2.length = 0 ∨ 2 < d2.length then none
      else
        match r3 with
        | '.' :: r4 =>
          let (d3, r5) := takeDigits r4
          if d3.length < 2 ∨ 4 < d3.length ∨ r5 ≠ [] then none
          else some (digitsVal d1, digitsVal d2, digitsVal d3)
        | _ => none
    | _ => none

/-- Two-digit-year pivot of the date normalizer: below 50 means 2000s,
otherwise 1900s. -/
def pivotYear (y : ℕ) : ℕ := if y < 100 then (if y < 50 then y + 2000 else y + 1900) else y

/-- String branch of the date normalizer shared by fact_attendance.py and
marts.py: strip, empty means empty, ISO-like prefix passes through as its
first ten characters, the day.month.year pattern is parsed with the
two-digit-year pivot and validated, anything else normalizes to the
empty string. -/
def normalizeDateStr (s0 : String) : String :=
  let s := pyStrip s0
  if s = "" then ""
  else if isoLike s.data then String.mk (s.data.take 10)
  else
    match parseDmy s with
    | some (d, m, yRaw) =>
      let y := pivotYear yRaw
      if validYmd y m d then formatIso y m d else ""
    | none => ""

/-- Numeric branch of the date normalizer: a numeric cell is a
spreadsheet serial date counted from 1899-12-30; out-of-range values
(datetime OverflowError) normalize to the empty string. -/
def normalizeDateNum (q : ℚ) : String :=
  let z : ℤ := daysFromCivil 1899 12 30 + truncZ q
  if daysFromCivil 1 1 1 ≤ z ∧ z ≤ daysFromCivil 9999 12 31 then
    let ymd := civilFromDays z
    formatIso ymd.1.toNat ymd.2.1 ymd.2.2
  else ""

/-- The date normalizer of fact_attendance.py and marts.py on a raw cell
value: YYYY-MM-DD string, or the empty string if unparseable. -/
def normalizeDate : Val → String
  | .null => ""
  | .num q => normalizeDateNum q
  | .str s => normalizeDateStr s

/-- First-match lookup in an association list (Python dict lookup). -/
def alGet? {α β : Type} [DecidableEq α] : List (α × β) → α → Option β
  | [], _ => none
  | (k', v) :: rest, k => if k' = k then some v else alGet? rest k

/-- Lookup with a default (Python dict.get(k, d)). -/
def alGetD {α β : Type} [DecidableEq α] (m : List (α × β)) (k : α) (d : β) : β :=
  (alGet? m k).getD d

/-- Insert into an association list, updating in place on an existing key
and appending otherwise: observably Python dict assignment. -/
def alInsert {α β : Type} [DecidableEq α] : List (α × β) → α → β → List (α × β)
  | [], k, v => [(k, v)]
  | (k', v') :: rest, k, v =>
    if k' = k then (k, v) :: rest else (k', v') :: alInsert rest k v

/-- Python truthiness of a cell value. -/
def pyTruthy : Val → Bool
  | .null => false
  | .str s => s ≠ ""
  | .num q => q ≠ 0

/-- Python x or y on cell values. -/
def valOr (v d : Val) : Val := if pyTruthy v then v else d

/-- The shared _safe_str helper of marts.py: empty for None, otherwise
str() and strip(). -/
def safeStr : Val → String
  | .null => ""
  | .str s => pyStrip s
  | .num q => pyStrip (numRepr q)

/-- The shared _get_safe helper of the builders: empty string when the
index is out of range or the cell is None, otherwise str() and strip(). -/
def getSafe (row : List Val) (idx : ℕ) : String :=
  match row[idx]? with
  | some v => safeStr v
  | none => ""

/-- The _safe_float helper of marts.py: default for None or the empty
string, a numeric cell as is, otherwise float() of the comma-to-dot
replaced text (float() tolerates surrounding whitespace), defaulting on
ValueError. -/
def safeFloat (v : Val) (dflt : ℚ) : ℚ :=
  match v with
  | .null => dflt
  | .num q => q
  | .str s =>
    if s = "" then dflt
    else ((pyFloat (String.mk (s.data.map (fun c => if c = ',' then '.' else c)))).getD dflt)

/-- Position of a column name in a header row, later duplicates winning:
the _index_by_name dict comprehension followed by .get(name). -/
def indexOfNameAux : List Val → String → ℕ → Option ℕ → Option ℕ
  | [], _, _, acc => acc
  | v :: rest, name, i, acc =>
    indexOfNameAux rest name (i + 1) (if v = .str name then some i else acc)

/-- Column index of a header name, as _index_by_name(header).get(name). -/
def indexOfName (header : List Val) (name : String) : Option ℕ :=
  indexOfNameAux header name 0 none

/-! dim_chorister.py -/

/-- Header of the dim_chorister table. -/
def DIM_CHORISTER_HEADER : List String :=
  ["chorister_id", "tgid", "full_name", "joined_date", "created_at", "updated_at"]

/-- The _normalize_name helper: strip, lower, whitespace runs to a single
underscore, then keep only word characters.  Word characters are
alphanumeric ASCII, underscore, and (as an approximation of the
Unicode-aware word class) any non-ASCII code point; no claim depends on
the non-ASCII classification. -/
def collapseWsAux : List Char → Bool → List Char
  | [], _ => []
  | c :: cs, prevWs =>
    if c.isWhitespace then
      (if prevWs then collapseWsAux cs true else '_' :: collapseWsAux cs true)
    else c :: collapseWsAux cs false

/-- Character class kept by _normalize_name's final substitution. -/
def isWordChar (c : Char) : Bool := c.isAlphanum || c == '_' || 128 ≤ c.toNat

/-- Name normalization for override lookups (see collapseWsAux). -/
def normalizeName (s : String) : String :=
  let t := (pyStrip s).data.map asciiLowerChar
  String.mk ((collapseWsAux t false).filter isWordChar)

/-- State threaded through the dim_chorister row loop: produced rows, the
seen_names occurrence counter, and the two returned lookup indexes. -/
structure DimSt where
  rows : List (List String)
  seen : List (String × ℕ)
  byKey : List ((String × String) × String)
  normIdx : List (String × String)
deriving DecidableEq

/-- The _make_chorister_id helper together with its seen_names update:
first occurrence of a full name keeps the bare name, any later
occurrence appends the row's joined date. -/
def makeChoristerId (fullName joined : String) (seen : List (String × ℕ)) :
    String × List (String × ℕ) :=
  let count := alGetD seen fullName 0 + 1
  let seen' := alInsert seen fullName count
  (if count = 1 then fullName else fullName ++ " | " ++ joined, seen')

/-- One iteration of the dim_chorister row loop. -/
def dimStep (nowIso : String) (ti ji wi : ℕ) (gi : Option ℕ) (st : DimSt)
    (row : List Val) : DimSt :=
  let tag := getSafe row ti
  if tag = "" ∨ tag = "Song" then st
  else
    let fullName := getSafe row wi
    if fullName = "" then st
    else
      let joined := getSafe row ji
      let tgid := match gi with | some i => getSafe row i | none => ""
      let idSeen := makeChoristerId fullName joined st.seen
      let cid := idSeen.1
      let byKey' := alInsert st.byKey (fullName, joined) cid
      let norm := normalizeName fullName
      let normIdx' :=
        match alGet? st.normIdx norm with
        | some _ => st.normIdx
        | none => alInsert st.normIdx norm cid
      { rows := st.rows ++ [[cid, tgid, fullName, joined, nowIso, nowIso]]
        seen := idSeen.2
        byKey := byKey'
        normIdx := normIdx' }

/-- The dim_chorister row loop over all data rows. -/
def dimRun (nowIso : String) (ti ji wi : ℕ) (gi : Option ℕ) :
    DimSt → List (List Val) → DimSt
  | st, [] => st
  | st, row :: rest => dimRun nowIso ti ji wi gi (dimStep nowIso ti ji wi gi st row) rest

/-- build_dim_chorister_from_raw: the produced table (header first) and
the two chorister-id lookup indexes. -/
def buildDimChorister (nowIso : String) (values : List (List Val)) :
    List (List String) × List ((String × String) × String) × List (String × String) :=
  match values with
  | [] => ([DIM_CHORISTER_HEADER], [], [])
  | header :: body =>
    match indexOfName header "Tag", indexOfName header "Joined", indexOfName header "Who" with
    | some ti, some ji, some wi =>
      let gi := indexOfName header "tgid"
      let st := dimRun nowIso ti ji wi gi ⟨[], [], [], []⟩ body
      (DIM_CHORISTER_HEADER :: st.rows, st.byKey, st.normIdx)
    | _, _, _ => ([DIM_CHORISTER_HEADER], [], [])

/-- Header of the dim_chorister_assignment table. -/
def DIM_CHORISTER_ASSIGNMENT_HEADER : List String :=
  ["assignment_id", "chorister_id", "voice_part", "is_active", "valid_from", "valid_to"]

/-- The hard-coded CHORISTER_ASSIGNMENT_OVERRIDES table, keyed by
normalized full name; entries are (voice_part, valid_from, valid_to). -/
def choristerAssignmentOverrides : List (String × List (String × String × String)) :=
  [("мария_дидуренко",
    [("soprano", "16.06.24", "01.10.24"), ("alto", "02.10.24", "")]),
   ("полина_калач",
    [("alto", "16.06.24", "01.10.24"), ("soprano", "02.10.24", "")]),
   ("митя_чернаков",
    [("bass", "16.06.24", "31.12.25"), ("tenor", "01.01.26", "")])]

/-- The _extract_voice_part_and_active helper: a tag starting (case
insensitively) with "ex" is inactive and loses the prefix and any
space/dash/underscore separators; anything else is the active voice
part; the result is stripped and lower-cased. -/
def extractVoicePartAndActive (tag : String) : String × Bool :=
  let raw := pyStrip tag
  let lower := asciiLower raw
  if listHasStart ['e', 'x'] lower.data then
    let vpSrc := (raw.data.drop 2).dropWhile (fun c => c == ' ' || c == '-' || c == '_')
    (asciiLower (pyStrip (String.mk vpSrc)), false)
  else (asciiLower (pyStrip raw), true)

/-- The dim_chorister_assignment row loop. -/
def assignRowsLoop (ti ji wi : ℕ) (byKey : List ((String × String) × String))
    (normIdx : List (String × String)) : List (List Val) → List (List String)
  | [] => []
  | row :: rest =>
    let tag := getSafe row ti
    if tag = "" ∨ tag = "Song" then assignRowsLoop ti ji wi byKey normIdx rest
    else
      let fullName := getSafe row wi
      if fullName = "" then assignRowsLoop ti ji wi byKey normIdx rest
      else
        let joined := getSafe row ji
        let cid := (alGet? byKey (fullName, joined)).getD fullName
        let norm := normalizeName fullName
        let deriveRows :=
          let vpA := extractVoicePartAndActive tag
          [[cid ++ " | " ++ vpA.1 ++ " | " ++ joined, cid, vpA.1,
            if vpA.2 then "TRUE" else "FALSE", joined, ""]]
        let emitted :=
          match alGet? choristerAssignmentOverrides norm with
          | some ovs =>
            if ovs.isEmpty then deriveRows
            else
              let ocid := (alGet? normIdx norm).getD cid
              ovs.map (fun ov =>
                let vp := asciiLower (pyStrip ov.1)
                [ocid ++ " | " ++ vp ++ " | " ++ ov.2.1, ocid, vp, "TRUE", ov.2.1, ov.2.2])
          | none => deriveRows
        emitted ++ assignRowsLoop ti ji wi byKey normIdx rest

/-- build_dim_chorister_assignment_from_raw. -/
def buildDimAssignment (values : List (List Val))
    (byKey : List ((String × String) × String))
    (normIdx : List (String × String)) : List (List String) :=
  match values with
  | [] => [DIM_CHORISTER_ASSIGNMENT_HEADER]
  | header :: body =>
    match indexOfName header "Tag", indexOfName header "Joined", indexOfName header "Who" with
    | some ti, some ji, some wi =>
      DIM_CHORISTER_ASSIGNMENT_HEADER :: assignRowsLoop ti ji wi byKey normIdx body
    | _, _, _ => [DIM_CHORISTER_ASSIGNMENT_HEADER]

/-! dim_song.py -/

/-- Header of the dim_song table. -/
def DIM_SONG_HEADER : List String := ["song_id", "song_name", "created_at", "updated_at"]

/-- The dim_song row loop: rows, ordered song ids, and the seen_titles
counter. -/
def songDimLoop (nowIso : String) (ti wi : ℕ) (seen : List (String × ℕ)) :
    List (List Val) → List (List String) × List String
  | [] => ([], [])
  | row :: rest =>
    if getSafe row ti ≠ "Song" then songDimLoop nowIso ti wi seen rest
    else
      let songName := getSafe row wi
      if songName = "" then songDimLoop nowIso ti wi seen rest
      else
        let count := alGetD seen songName 0 + 1
        let songId := if count = 1 then songName else songName ++ " (" ++ toString count ++ ")"
        let restOut := songDimLoop nowIso ti wi (alInsert seen songName count) rest
        ([songId, songName, nowIso, nowIso] :: restOut.1, songId :: restOut.2)

/-- build_dim_song_from_raw: the table (header first) and the ordered
song-id list consumed by fact_song_time. -/
def buildDimSong (nowIso : String) (values : List (List Val)) :
    List (List String) × List String :=
  match values with
  | [] => ([DIM_SONG_HEADER], [])
  | header :: body =>
    match indexOfName header "Tag", indexOfName header "Who" with
    | some ti, some wi =>
      let out := songDimLoop nowIso ti wi [] body
      (DIM_SONG_HEADER :: out.1, out.2)
    | _, _ => ([DIM_SONG_HEADER], [])

/-! fact_attendance.py -/

/-- RuntimeError values raised by the core, one constructor per raise
site, carrying exactly the data interpolated into the corresponding
message. -/
inductive EtlError where
  | dupDate (iso : String) (firstIdx secondIdx : ℕ) (rawHeader : String)
  | emptyHours (choristerId rehearsalDate : String)
  | blankHours (choristerId rehearsalDate : String) (raw : Val)
  | negativeHours (choristerId rehearsalDate : String) (raw : Val)
  | unparseableHours (choristerId rehearsalDate : String) (raw : Val)
  | invalidJoinedDate (choristerId : String) (raw : Val)
deriving DecidableEq

deriving instance DecidableEq for Except

/-- One attendance fact row (the header FACT_ATTENDANCE_HEADER is the
constant first row of the written table and is kept separate). -/
structure AttendanceFact where
  rehearsalDate : String
  choristerId : String
  hoursAttended : ℚ
  missedFlag : ℕ
  loadTs : String
deriving DecidableEq

/-- Header of the fact_attendance table. -/
def FACT_ATTENDANCE_HEADER : List String :=
  ["rehearsal_date", "chorister_id", "hours_attended", "missed_flag", "load_ts"]

/-- The _parse_hours_strict helper: comma accepted as decimal separator,
negative and unparseable values are fatal with chorister id, date and
raw value attached. -/
def parseHoursStrict (value : Val) (cid rdate : String) : Except EtlError ℚ :=
  match value with
  | .null => .error (.emptyHours cid rdate)
  | .num q => if q < 0 then .error (.negativeHours cid rdate (.num q)) else .ok q
  | .str s0 =>
    if s0 = "" then .error (.emptyHours cid rdate)
    else
      let s := pyStrip s0
      if s = "" then .error (.blankHours cid rdate (.str s0))
      else
        match pyFloat (String.mk (s.data.map (fun c => if c = ',' then '.' else c))) with
        | some v =>
          if v < 0 then .error (.negativeHours cid rdate (.str s0)) else .ok v
        | none => .error (.unparseableHours cid rdate (.str s0))

/-- The header scan of build_fact_attendance_from_raw over the column
indexes from the fixed offset: empty or unnormalizable headers are
skipped, a date seen twice is fatal, naming both column positions. -/
def scanCols (header : List Val) : List ℕ → List (String × ℕ) →
    Except EtlError (List (ℕ × String))
  | [], _ => .ok []
  | idx :: rest, seen =>
    let dateStr := getSafe header idx
    if dateStr = "" then scanCols header rest seen
    else
      let iso := normalizeDateStr dateStr
      if iso = "" then scanCols header rest seen
      else
        match alGet? seen iso with
        | some firstIdx => .error (.dupDate iso firstIdx idx dateStr)
        | none => (scanCols header rest (alInsert seen iso idx)).map (fun l => (idx, iso) :: l)

/-- Python's emptiness test on an attendance cell: None, or a string that
strips to nothing. -/
def cellIsEmpty : Val → Bool
  | .null => true
  | .str s => pyStrip s = ""
  | .num _ => false

/-- The attendance cell loop over the retained date columns of one
eligible chorister row: an empty cell gives a missed row, any other cell
must parse. -/
def cellsForRow (nowIso cid : String) (row : List Val) :
    List (ℕ × String) → Except EtlError (List AttendanceFact)
  | [] => .ok []
  | (ci, iso) :: rest =>
    let rawVal : Val := match row[ci]? with | some v => v | none => .null
    if cellIsEmpty rawVal then
      (cellsForRow nowIso cid row rest).map
        (fun l => { rehearsalDate := iso, choristerId := cid, hoursAttended := 0,
                    missedFlag := 1, loadTs := nowIso } :: l)
    else
      match parseHoursStrict rawVal cid iso with
      | .error e => .error e
      | .ok h =>
        (cellsForRow nowIso cid row rest).map
          (fun l => { rehearsalDate := iso, choristerId := cid, hoursAttended := h,
                      missedFlag := 0, loadTs := nowIso } :: l)

/-- The attendance row loop: eligibility as in dim_chorister, then the
chorister id lookup (rows with a missing or falsy id are skipped), then
one fact per retained date column. -/
def attRowsLoop (nowIso : String) (ti ji wi : ℕ)
    (byKey : List ((String × String) × String)) (dateCols : List (ℕ × String)) :
    List (List Val) → Except EtlError (List AttendanceFact)
  | [] => .ok []
  | row :: rest =>
    let tag := getSafe row ti
    if tag = "" ∨ tag = "Song" then attRowsLoop nowIso ti ji wi byKey dateCols rest
    else
      let fullName := getSafe row wi
      if fullName = "" then attRowsLoop nowIso ti ji wi byKey dateCols rest
      else
        let joined := getSafe row ji
        match alGet? byKey (fullName, joined) with
        | none => attRowsLoop nowIso ti ji wi byKey dateCols rest
        | some cid =>
          if cid = "" then attRowsLoop nowIso ti ji wi byKey dateCols rest
          else
            match cellsForRow nowIso cid row dateCols with
            | .error e => .error e
            | .ok fs =>
              (attRowsLoop nowIso ti ji wi byKey dateCols rest).map (fun l => fs ++ l)

/-- build_fact_attendance_from_raw; .ok gives the data rows (the table's
constant first row is FACT_ATTENDANCE_HEADER), .error a raised
RuntimeError. -/
def buildFactAttendance (nowIso : String) (values : List (List Val))
    (byKey : List ((String × String) × String)) : Except EtlError (List AttendanceFact) :=
  match values with
  | [] => .ok []
  | header :: body =>
    match indexOfName header "Tag", indexOfName header "Joined", indexOfName header "Who" with
    | some ti, some ji, some wi =>
      match scanCols header (List.range' 4 (header.length - 4)) [] with
      | .error e => .error e
      | .ok dateCols => attRowsLoop nowIso ti ji wi byKey dateCols body
    | _, _, _ => .ok []

/-! fact_song_time.py -/

/-- One song-time fact row. -/
structure SongTimeFact where
  rehearsalDate : String
  songId : String
  minutesSpent : ℚ
  loadTs : String
deriving DecidableEq

/-- Header of the fact_song_time table. -/
def FACT_SONG_TIME_HEADER : List String :=
  ["rehearsal_date", "song_id", "minutes_spent", "load_ts"]

/-- The _parse_minutes helper: a numeric value if the cell holds one,
otherwise none; no sign check. -/
def parseMinutes : Val → Option ℚ
  | .null => none
  | .num q => some q
  | .str s0 =>
    if s0 = "" then none
    else
      let s := pyStrip s0
      if s = "" then none
      else pyFloat (String.mk (s.data.map (fun c => if c = ',' then '.' else c)))

/-- The date columns retained by build_fact_song_time_from_raw: every
column from the fixed offset whose stripped header text is non-empty,
kept with its raw header text (no normalization). -/
def songDateCols (header : List Val) : List (ℕ × String) :=
  (List.range' 4 (header.length - 4)).filterMap (fun idx =>
    let dateStr := getSafe header idx
    if dateStr = "" then none else some (idx, dateStr))

/-- The song-time row loop: rows tagged Song consume the ordered song-id
list one-to-one; the loop stops when the ids run out; numeric cells each
give one fact, other cells are silently skipped. -/
def songRowsLoop (nowIso : String) (ti : ℕ) (dateCols : List (ℕ × String)) :
    List (List Val) → List String → List SongTimeFact
  | [], _ => []
  | row :: rest, ids =>
    if getSafe row ti ≠ "Song" then songRowsLoop nowIso ti dateCols rest ids
    else
      match ids with
      | [] => []
      | songId :: ids' =>
        (dateCols.filterMap (fun c =>
          let minutes := parseMinutes (match row[c.1]? with | some v => v | none => .null)
          minutes.map (fun m =>
            { rehearsalDate := c.2, songId := songId, minutesSpent := m, loadTs := nowIso }))) ++
          songRowsLoop nowIso ti dateCols rest ids'

/-- build_fact_song_time_from_raw; the data rows of the table whose
constant first row is FACT_SONG_TIME_HEADER.  The builder raises
nothing. -/
def buildFactSongTime (nowIso : String) (values : List (List Val))
    (songIdsOrdered : List String) : List SongTimeFact :=
  match values with
  | [] => []
  | header :: body =>
    if songIdsOrdered.isEmpty then []
    else
      match indexOfName header "Tag", indexOfName header "Who" with
      | some ti, some _ =>
        songRowsLoop nowIso ti (songDateCols header) body songIdsOrdered
      | _, _ => []

/-! marts.py.  The mart builders consume the persisted tables re-read as
row dictionaries (read_table: one mapping per data row, keyed by the
table's header); a row of a known table is modelled as a structure with
one Val field per column. -/

/-- A dim_chorister row as read back through read_table. -/
structure ChoristerDictRow where
  chorister_id : Val
  tgid : Val
  full_name : Val
  joined_date : Val
  created_at : Val
  updated_at : Val
deriving DecidableEq

/-- A dim_chorister_assignment row as read back through read_table. -/
structure AssignmentDictRow where
  assignment_id : Val
  chorister_id : Val
  voice_part : Val
  is_active : Val
  valid_from : Val
  valid_to : Val
deriving DecidableEq

/-- A fact_attendance row as read back through read_table. -/
structure FactAttDictRow where
  rehearsal_date : Val
  chorister_id : Val
  hours_attended : Val
  missed_flag : Val
  load_ts : Val
deriving DecidableEq

/-- One mart_attendance output row. -/
structure MartAttRow where
  rehearsalDate : String
  choristerId : String
  fullName : String
  joinedDate : String
  voicePart : String
  hoursAttended : ℚ
  attendedFlag : ℕ
  missedFlag : ℕ
  availableFlag : ℕ
deriving DecidableEq

/-- Header of the mart_attendance table. -/
def MART_ATTENDANCE_HEADER : List String :=
  ["rehearsal_date", "chorister_id", "full_name", "joined_date", "voice_part",
   "hours_attended", "attended_flag", "missed_flag", "available_flag"]

/-- The candidate filter of _get_voice_part_for_date for one assignment
row: matching chorister, a normalizable valid_from not after the date,
and a valid_to that is empty, unnormalizable, or not before the date;
yields (normalized valid_from, voice part). -/
def voiceCandidate (cid rdIso : String) (a : AssignmentDictRow) :
    Option (String × String) :=
  if safeStr a.chorister_id ≠ cid then none
  else
    let vf := normalizeDate a.valid_from
    let vt := safeStr (valOr a.valid_to (.str ""))
    if vf = "" then none
    else if strLt rdIso vf then none
    else if vt ≠ "" ∧ normalizeDateStr vt ≠ "" ∧ strLt (normalizeDateStr vt) rdIso then none
    else some (vf, safeStr a.voice_part)

/-- First element with the maximal first component: exactly the head of
the candidate list after the stable descending sort on valid_from. -/
def pickMax : List (String × String) → Option (String × String)
  | [] => none
  | c :: cs => some (cs.foldl (fun best x => if strLt best.1 x.1 then x else best) c)

/-- The _get_voice_part_for_date temporal-resolution primitive. -/
def getVoicePartForDate (cid rdIso : String) (assignments : List AssignmentDictRow) :
    String :=
  if rdIso = "" then ""
  else
    match pickMax (assignments.filterMap (voiceCandidate cid rdIso)) with
    | none => ""
    | some c => c.2

/-- The chorister_by_id dict of build_mart_attendance: rows keyed by
their non-empty stripped chorister_id, later rows overwriting earlier
ones. -/
def buildById (dimCh : List ChoristerDictRow) : List (String × ChoristerDictRow) :=
  dimCh.foldl (fun m r =>
    let k := safeStr r.chorister_id
    if k = "" then m else alInsert m k r) []

/-- The _joined_date_iso_for_available helper: empty joined date (or an
unknown chorister, giving the empty row dict) is empty; a present but
unnormalizable joined date raises, naming the chorister. -/
def joinedDateIsoForAvailable (ch : Option ChoristerDictRow) (cid : String) :
    Except EtlError String :=
  let raw := match ch with | some c => c.joined_date | none => Val.null
  let s := safeStr raw
  if s = "" then .ok ""
  else
    let iso := normalizeDate raw
    if iso = "" then .error (.invalidJoinedDate cid raw) else .ok iso

/-- One iteration of the build_mart_attendance fact loop. -/
def martRowFor (byId : List (String × ChoristerDictRow))
    (assigns : List AssignmentDictRow) (fa : FactAttDictRow) :
    Except EtlError MartAttRow :=
  let rdIso0 := normalizeDate fa.rehearsal_date
  let rdIso := if rdIso0 = "" then safeStr fa.rehearsal_date else rdIso0
  let cid := safeStr fa.chorister_id
  let hours := safeFloat fa.hours_attended 0
  let missedVal := safeFloat fa.missed_flag 0
  let missed : ℕ := if missedVal ≠ 0 then 1 else 0
  let ch := alGet? byId cid
  let fullName := safeStr (match ch with | some c => c.full_name | none => Val.null)
  let jraw := match ch with | some c => c.joined_date | none => Val.null
  match joinedDateIsoForAvailable ch cid with
  | .error e => .error e
  | .ok jiso =>
    let jdisp := if normalizeDate jraw ≠ "" then normalizeDate jraw else safeStr jraw
    let vp := getVoicePartForDate cid rdIso assigns
    let attended : ℕ := if 0 < hours then 1 else 0
    let avail : ℕ := if jiso ≠ "" ∧ strLt rdIso jiso = false then 1 else 0
    .ok { rehearsalDate := rdIso, choristerId := cid, fullName := fullName,
          joinedDate := jdisp, voicePart := vp, hoursAttended := hours,
          attendedFlag := attended, missedFlag := missed, availableFlag := avail }

/-- The build_mart_attendance fact loop. -/
def martRowsLoop (byId : List (String × ChoristerDictRow))
    (assigns : List AssignmentDictRow) :
    List FactAttDictRow → Except EtlError (List MartAttRow)
  | [] => .ok []
  | fa :: rest =>
    match martRowFor byId assigns fa with
    | .error e => .error e
    | .ok r => (martRowsLoop byId assigns rest).map (fun l => r :: l)

/-- build_mart_attendance; .ok gives the data rows (the returned header
is the constant MART_ATTENDANCE_HEADER). -/
def buildMartAttendance (dimCh : List ChoristerDictRow)
    (assigns : List AssignmentDictRow) (facts : List FactAttDictRow) :
    Except EtlError (List MartAttRow) :=
  martRowsLoop (buildById dimCh) assigns facts

/-! Claim-side definitions.  The following definitions transcribe the
wording of the specification (not the code) and are compared with the
source-derived definitions above in the theorems. -/

/-- Eligible chorister rows of the wide input, in order, projected to
(full_name, joined_date, tgid): the shared eligibility filter (Tag
non-empty and not the Song sentinel, Who non-empty). -/
def eligTriples (ti ji wi : ℕ) (gi : Option ℕ) (rows : List (List Val)) :
    List (String × String × String) :=
  rows.filterMap (fun row =>
    let tag := getSafe row ti
    if tag = "" ∨ tag = "Song" then none
    else
      let n := getSafe row wi
      if n = "" then none
      else some (n, getSafe row ji, match gi with | some i => getSafe row i | none => ""))

/-- Chorister id as worded by the spec: the bare full name on its first
occurrence, otherwise the name joined with that row's joined date. -/
def specChoristerId (prev : List (String × String)) (name joined : String) : String :=
  if prev.any (fun p => p.1 == name) then name ++ " | " ++ joined else name

/-- Each eligible triple paired with its spec-worded chorister id, the
prefix of already-processed (name, joined) pairs deciding first
occurrence. -/
def specAssignIds (prev : List (String × String)) :
    List (String × String × String) → List ((String × String × String) × String)
  | [] => []
  | t :: rest =>
    (t, specChoristerId prev t.1 t.2.1) :: specAssignIds (prev ++ [(t.1, t.2.1)]) rest

/-- The dim_chorister data rows as worded by the spec. -/
def specDimRows (nowIso : String) (triples : List (String × String × String)) :
    List (List String) :=
  (specAssignIds [] triples).map (fun p => [p.2, p.1.2.2, p.1.1, p.1.2.1, nowIso, nowIso])

/-- Qualifying interval as worded by the spec of the temporal join: the
chorister's interval, its valid_from (normalized) not after the date,
and its valid_to empty or (normalized) not before the date. -/
def specQualifiesB (cid rdIso : String) (a : AssignmentDictRow) : Bool :=
  safeStr a.chorister_id == cid &&
    strLt rdIso (normalizeDate a.valid_from) == false &&
    (safeStr (valOr a.valid_to (.str "")) == "" ||
      strLt (normalizeDateStr (safeStr (valOr a.valid_to (.str "")))) rdIso == false)

/-- Retained date columns as worded by the spec: from the fixed offset,
non-empty headers that normalize, each with its normalized date; columns
that fail to normalize are dropped. -/
def specRetainedCols (header : List Val) : List (ℕ × String) :=
  (List.range' 4 (header.length - 4)).filterMap (fun i =>
    let d := getSafe header i
    if d = "" then none
    else
      let iso := normalizeDateStr d
      if iso = "" then none else some (i, iso))

/-- An attendance cell value read as a number, as worded by the spec:
numeric cells as is, strings parsed with the comma accepted as decimal
separator. -/
def cellNumber : Val → Option ℚ
  | .null => none
  | .num q => some q
  | .str s => pyFloat (String.mk ((pyStrip s).data.map (fun c => if c = ',' then '.' else c)))

/-- The rehearsal-date key of a mart_attendance row: the fact row's date
normalized, falling back to its stripped raw text. -/
def martRdIso (fa : FactAttDictRow) : String :=
  if normalizeDate fa.rehearsal_date = "" then safeStr fa.rehearsal_date
  else normalizeDate fa.rehearsal_date

/-- The chorister's joined date for availability, as worded by the spec:
empty for an unknown chorister or an empty joined cell, otherwise the
normalized joined date. -/
def specJoinedIso (byId : List (String × ChoristerDictRow)) (cid : String) : String :=
  match alGet? byId cid with
  | none => ""
  | some c => if safeStr c.joined_date = "" then "" else normalizeDate c.joined_date

/-- A fact row whose chorister is known and has a present but
unnormalizable joined date (the fatal case of the claim). -/
def specBadJoined (byId : List (String × ChoristerDictRow)) (fa : FactAttDictRow) : Prop :=
  ∃ c, alGet? byId (safeStr fa.chorister_id) = some c ∧
    safeStr c.joined_date ≠ "" ∧ normalizeDate c.joined_date = ""

/-! Concrete inputs used by witnesses and counterexamples. -/

/-- The override intervals of the worked example of the temporal join,
as assignment rows for a chorister with id M. -/
def exOverrideAssigns : List AssignmentDictRow :=
  [{ assignment_id := .str "M | soprano | 16.06.24", chorister_id := .str "M",
     voice_part := .str "soprano", is_active := .str "TRUE",
     valid_from := .str "16.06.24", valid_to := .str "01.10.24" },
   { assignment_id := .str "M | alto | 02.10.24", chorister_id := .str "M",
     voice_part := .str "alto", is_active := .str "TRUE",
     valid_from := .str "02.10.24", valid_to := .str "" }]

/-- A wide input whose three eligible rows all carry the same full name
and the same joined date. -/
def exDupValues : List (List Val) :=
  [[.str "Tag", .str "Joined", .str "tgid", .str "Who"],
   [.str "alto", .str "01.01.24", .null, .str "Ann"],
   [.str "alto", .str "01.01.24", .null, .str "Ann"],
   [.str "alto", .str "01.01.24", .null, .str "Ann"]]

/-- A wide input with a repeated full name but distinct joined dates. -/
def exDistinctValues : List (List Val) :=
  [[.str "Tag", .str "Joined", .str "tgid", .str "Who"],
   [.str "alto", .str "01.01.24", .str "11", .str "Ann"],
   [.str "soprano", .str "02.02.24", .str "22", .str "Ann"],
   [.str "bass", .str "01.01.24", .null, .str "Bob"]]

/-- A wide input with two header columns that normalize to the same
date, and one Song row with numeric cells under both. -/
def exSongValues : List (List Val) :=
  [[.str "Tag", .str "Joined", .str "tgid", .str "Who", .str "16.06.24", .str "2024-06-16"],
   [.str "Song", .null, .null, .str "Hallelujah", .str "30", .str "15"]]

/-- A wide input with one Song row holding a negative numeric cell. -/
def exNegativeValues : List (List Val) :=
  [[.str "Tag", .str "Joined", .str "tgid", .str "Who", .str "16.06.24"],
   [.str "Song", .null, .null, .str "S1", .str "-5"]]

/-- A wide input with one eligible chorister row and one date column
whose attendance cell is empty. -/
def exAttValues : List (List Val) :=
  [[.str "Tag", .str "Joined", .str "tgid", .str "Who", .str "16.06.24"],
   [.str "alto", .str "01.01.24", .null, .str "Ann", .null]]

/-- A dim_chorister table (as read back) whose single chorister has an
unnormalizable joined date, and a fact table referencing that
chorister. -/
def exBadJoinedDim : List ChoristerDictRow :=
  [{ chorister_id := .str "Ann", tgid := .str "", full_name := .str "Ann",
     joined_date := .str "junk", created_at := .str "t", updated_at := .str "t" }]

/-- A fact_attendance table (as read back) with one row for that
chorister. -/
def exBadJoinedFacts : List FactAttDictRow :=
  [{ rehearsal_date := .str "2024-06-16", chorister_id := .str "Ann",
     hours_attended := .num 2, missed_flag := .num 0, load_ts := .str "t" }]

/-! Generic lemmas about the dict model and strings. -/

theorem alGet?_alInsert {α β : Type} [DecidableEq α] (m : List (α × β)) (k : α) (v : β)
    (x : α) : alGet? (alInsert m k v) x = if x = k then some v else alGet? m x := by
  induction m with
  | nil =>
    simp only [alInsert, alGet?]
    by_cases hx : k = x
    · subst hx; simp
    · rw [if_neg hx, if_neg (fun h => hx h.symm)]
  | cons p rest ih =>
    obtain ⟨k', v'⟩ := p
    by_cases hk : k' = k
    · subst hk
      simp only [alInsert, if_pos rfl, alGet?]
      by_cases hx : k' = x
      · subst hx; simp
      · simp only [if_neg hx, if_neg (fun h : x = k' => hx h.symm)]
    · simp only [alInsert, if_neg hk, alGet?]
      by_cases hx : k' = x
      · subst hx
        simp [alGet?, hk]
      · simp [hx, ih]

theorem mem_alInsert {α β : Type} [DecidableEq α] (m : List (α × β)) (k : α) (v : β)
    (p : α × β) (hp : p ∈ alInsert m k v) : p = (k, v) ∨ p ∈ m := by
  induction m with
  | nil => simpa [alInsert] using hp
  | cons q rest ih =>
    obtain ⟨a, b⟩ := q
    by_cases hk : a = k
    · subst hk
      simp only [alInsert, if_pos rfl] at hp
      rcases List.mem_cons.mp hp with h | h
      · exact Or.inl h
      · exact Or.inr (List.mem_cons.mpr (Or.inr h))
    · simp only [alInsert, if_neg hk] at hp
      rcases List.mem_cons.mp hp with h | h
      · exact Or.inr (List.mem_cons.mpr (Or.inl h))
      · rcases ih h with h1 | h1
        · exact Or.inl h1
        · exact Or.inr (List.mem_cons.mpr (Or.inr h1))

theorem indexOfNameAux_of_notMem (l : List Val) (name : String)
    (h : Val.str name ∉ l) : ∀ i acc, indexOfNameAux l name i acc = acc := by
  induction l with
  | nil => intro i acc; rfl
  | cons v rest ih =>
    intro i acc
    have hv : v ≠ Val.str name := fun he => h (he ▸ List.mem_cons_self v rest)
    have hrest : Val.str name ∉ rest := fun he => h (List.mem_cons_of_mem v he)
    simp only [indexOfNameAux, if_neg hv, ih hrest]

theorem indexOfName_eq_none_of_notMem (header : List Val) (name : String)
    (h : Val.str name ∉ header) : indexOfName header name = none :=
  indexOfNameAux_of_notMem header name h 0 none

theorem lexLt_irrefl (l : List Char) : lexLt l l = false := by
  induction l with
  | nil => rfl
  | cons c cs ih => simp [lexLt, ih]

theorem lexLt_trans {a b c : List Char} (hab : lexLt a b = true)
    (hbc : lexLt b c = true) : lexLt a c = true := by
  induction a generalizing b c with
  | nil =>
    cases b with
    | nil => simp [lexLt] at hab
    | cons y ys =>
      cases c with
      | nil => simp [lexLt] at hbc
      | cons z zs => rfl
  | cons x xs ih =>
    cases b with
    | nil => simp [lexLt] at hab
    | cons y ys =>
      cases c with
      | nil => simp [lexLt] at hbc
      | cons z zs =>
        simp only [lexLt] at hab hbc ⊢
        by_cases hxy : x.toNat < y.toNat
        · by_cases hyz : y.toNat < z.toNat
          · simp [Nat.lt_trans hxy hyz]
          · simp only [if_neg hyz] at hbc
            by_cases hzy : z.toNat < y.toNat
            · simp [hzy] at hbc
            · have hyz' : y.toNat = z.toNat :=
                Nat.le_antisymm (Nat.le_of_not_lt hzy) (Nat.le_of_not_lt hyz)
              have hxz : x.toNat < z.toNat := hyz' ▸ hxy
              simp [hxz]
        · simp only [if_neg hxy] at hab
          by_cases hyx : y.toNat < x.toNat
          · simp [hyx] at hab
          · simp only [if_neg hyx] at hab
            have hxy' : x.toNat = y.toNat :=
              Nat.le_antisymm (Nat.le_of_not_lt hyx) (Nat.le_of_not_lt hxy)
            by_cases hyz : y.toNat < z.toNat
            · have hxz : x.toNat < z.toNat := hxy' ▸ hyz
              simp [hxz]
            · simp only [if_neg hyz] at hbc
              by_cases hzy : z.toNat < y.toNat
              · simp [hzy] at hbc
              · simp only [if_neg hzy] at hbc
                have hyz' : y.toNat = z.toNat :=
                  Nat.le_antisymm (Nat.le_of_not_lt hzy) (Nat.le_of_not_lt hyz)
                have h1 : ¬ x.toNat < z.toNat := by omega
                have h2 : ¬ z.toNat < x.toNat := by omega
                simp only [if_neg h1, if_neg h2]
                exact ih hab hbc

theorem strLt_trans {a b c : String} (hab : strLt a b = true) (hbc : strLt b c = true) :
    strLt a c = true := lexLt_trans hab hbc

theorem strLt_irrefl (a : String) : strLt a a = false := lexLt_irrefl a.data

/-! Claim C10. -/

/-- Claim C10: _parse_minutes performs no non-negativity check, so the
song-time unpivot emits a SongTimeFact row with negative minutes_spent
without raising (witnessed on a concrete input), while the attendance
parser rejects the same negative value as a fatal error. -/
theorem c10_negative_minutes_pass_through :
    parseMinutes (.str "-5") = some (-5) ∧
    buildFactSongTime "T" exNegativeValues ["S1"] =
      [{ rehearsalDate := "16.06.24", songId := "S1", minutesSpent := -5, loadTs := "T" }] ∧
    (-5 : ℚ) < 0 ∧
    parseHoursStrict (.str "-5") "Ann" "2024-06-16" =
      .error (.negativeHours "Ann" "2024-06-16" (.str "-5")) := by
  refine ⟨by decide, by decide, by decide, by decide⟩

/-! Claim C7. -/

/-- Counterexample to claim C7: on a wide input whose two header columns
both normalize to 2024-06-16, the song-time unpivot does not normalize
at all — it emits a fact row carrying the raw header text 16.06.24
(different from its normalization) and raises no duplicate-date error,
whereas the attendance unpivot of the same input is a fatal
duplicate-date error. -/
theorem c7_counterexample :
    buildFactSongTime "T" exSongValues ["Hallelujah"] =
      [{ rehearsalDate := "16.06.24", songId := "Hallelujah", minutesSpent := 30, loadTs := "T" },
       { rehearsalDate := "2024-06-16", songId := "Hallelujah", minutesSpent := 15, loadTs := "T" }] ∧
    normalizeDateStr "16.06.24" = "2024-06-16" ∧
    ("16.06.24" : String) ≠ "2024-06-16" ∧
    buildFactAttendance "T" exSongValues [] =
      .error (.dupDate "2024-06-16" 4 5 "2024-06-16") := by
  refine ⟨by decide, by decide, by decide, by decide⟩

theorem mem_songDateCols (header : List Val) (c : ℕ × String)
    (hc : c ∈ songDateCols header) :
    4 ≤ c.1 ∧ c.1 < header.length ∧ getSafe header c.1 ≠ "" ∧ c.2 = getSafe header c.1 := by
  simp only [songDateCols, List.mem_filterMap] at hc
  obtain ⟨i, hi, heq⟩ := hc
  have hrange := List.mem_range'_1.mp hi
  by_cases hd : getSafe header i = ""
  · simp [hd] at heq
  · simp only [if_neg hd, Option.some.injEq] at heq
    subst heq
    exact ⟨hrange.1, by omega, hd, rfl⟩

theorem mem_songRowsLoop (nowIso : String) (ti : ℕ) (cols : List (ℕ × String))
    (body : List (List Val)) (f : SongTimeFact) :
    ∀ ids, f ∈ songRowsLoop nowIso ti cols body ids → ∃ c ∈ cols, f.rehearsalDate = c.2 := by
  induction body with
  | nil => intro ids h; simp [songRowsLoop] at h
  | cons row rest ih =>
    intro ids h
    simp only [songRowsLoop] at h
    by_cases htag : getSafe row ti = "Song"
    · rw [if_neg (not_not_intro htag)] at h
      cases ids with
      | nil => simp at h
      | cons songId ids2 =>
        rcases List.mem_append.mp h with hl | hr
        · simp only [List.mem_filterMap] at hl
          obtain ⟨c, hc, heq⟩ := hl
          refine ⟨c, hc, ?_⟩
          rcases hm : parseMinutes (match row[c.1]? with | some v => v | none => Val.null) with _ | m
          · simp [hm] at heq
          · rw [hm] at heq
            have hf := Option.some.inj heq
            rw [← hf]
        · exact ih ids2 hr
    · rw [if_pos htag] at h
      exact ih ids h

/-- Amended claim C7: in the song-time unpivot, header columns from the
fixed offset are retained with their raw (stripped) header text whenever
that text is non-empty — no ISO normalization, no duplicate-date check
and no dropping of unparseable headers takes place — so every
SongTimeFact row carries as rehearsal_date the raw header text of some
retained column (and the builder never raises, by its type). -/
theorem c7_amended_raw_header_dates (nowIso : String) (values : List (List Val))
    (ids : List String) (f : SongTimeFact) (hf : f ∈ buildFactSongTime nowIso values ids) :
    ∃ header body i, values = header :: body ∧ 4 ≤ i ∧ i < header.length ∧
      getSafe header i ≠ "" ∧ f.rehearsalDate = getSafe header i := by
  cases values with
  | nil => simp [buildFactSongTime] at hf
  | cons header body =>
    refine ⟨header, body, ?_⟩
    simp only [buildFactSongTime] at hf
    by_cases hids : ids.isEmpty
    · simp [hids] at hf
    · simp only [if_neg hids] at hf
      rcases h1 : indexOfName header "Tag" with _ | ti
      · simp [h1] at hf
      · rcases h2 : indexOfName header "Who" with _ | wi
        · simp [h1, h2] at hf
        · simp only [h1, h2] at hf
          obtain ⟨c, hc, hdate⟩ := mem_songRowsLoop nowIso ti (songDateCols header) body f ids hf
          obtain ⟨hge, hlt, hne, hcol⟩ := mem_songDateCols header c hc
          exact ⟨c.1, rfl, hge, hlt, hne, hdate.trans hcol⟩

/-- Witness for the amended claim C7 at a concrete input. -/
theorem c7_amended_witness :
    ∃ header body i, exSongValues = header :: body ∧ 4 ≤ i ∧ i < header.length ∧
      getSafe header i ≠ "" ∧
      ({ rehearsalDate := "16.06.24", songId := "Hallelujah", minutesSpent := 30,
         loadTs := "T" } : SongTimeFact).rehearsalDate = getSafe header i :=
  c7_amended_raw_header_dates "T" exSongValues ["Hallelujah"]
    { rehearsalDate := "16.06.24", songId := "Hallelujah", minutesSpent := 30, loadTs := "T" }
    (by decide)

/-! Claim C8. -/

/-- Claim C8: with any required column name (Tag, Joined or Who) absent
from the header, each of the three builders returns only its header row
and raises nothing (the fact builder returns .ok with zero data rows). -/
theorem c8_header_only_on_missing_columns (nowIso nowIso2 : String) (header : List Val)
    (body : List (List Val)) (byKey byKey2 : List ((String × String) × String))
    (normIdx : List (String × String))
    (hmiss : Val.str "Tag" ∉ header ∨ Val.str "Joined" ∉ header ∨ Val.str "Who" ∉ header) :
    buildDimChorister nowIso (header :: body) = ([DIM_CHORISTER_HEADER], [], []) ∧
    buildDimAssignment (header :: body) byKey normIdx = [DIM_CHORISTER_ASSIGNMENT_HEADER] ∧
    buildFactAttendance nowIso2 (header :: body) byKey2 = .ok [] := by
  rcases h1 : indexOfName header "Tag" with _ | ti <;>
    rcases h2 : indexOfName header "Joined" with _ | ji <;>
      rcases h3 : indexOfName header "Who" with _ | wi <;>
        first
        | (refine ⟨?_, ?_, ?_⟩ <;>
            (simp [buildDimChorister, buildDimAssignment, buildFactAttendance, h1, h2, h3]; done))
        | (rcases hmiss with hm | hm | hm
           · exact absurd (indexOfName_eq_none_of_notMem header "Tag" hm) (by simp [h1])
           · exact absurd (indexOfName_eq_none_of_notMem header "Joined" hm) (by simp [h2])
           · exact absurd (indexOfName_eq_none_of_notMem header "Who" hm) (by simp [h3]))

/-- Witness for claim C8 at a concrete input lacking the Joined column. -/
theorem c8_witness :
    buildDimChorister "T" [[Val.str "Tag", Val.str "Who"], [Val.str "alto", Val.str "Ann"]] =
      ([DIM_CHORISTER_HEADER], [], []) ∧
    buildDimAssignment [[Val.str "Tag", Val.str "Who"], [Val.str "alto", Val.str "Ann"]] [] [] =
      [DIM_CHORISTER_ASSIGNMENT_HEADER] ∧
    buildFactAttendance "T2" [[Val.str "Tag", Val.str "Who"], [Val.str "alto", Val.str "Ann"]] [] =
      .ok [] :=
  c8_header_only_on_missing_columns "T" "T2" [Val.str "Tag", Val.str "Who"]
    [[Val.str "alto", Val.str "Ann"]] [] [] [] (Or.inr (Or.inl (by decide)))

/-! Claim C2: the seen_names counter mechanism realizes the spec's
first-occurrence rule. -/

theorem alGetD_alInsert {α β : Type} [DecidableEq α] (m : List (α × β)) (k : α) (v : β)
    (x : α) (d : β) : alGetD (alInsert m k v) x d = if x = k then v else alGetD m x d := by
  by_cases hx : x = k <;> simp [alGetD, alGet?_alInsert, hx]

theorem dimStep_skip (nowIso : String) (ti ji wi : ℕ) (gi : Option ℕ) (st : DimSt)
    (row : List Val)
    (h : (getSafe row ti = "" ∨ getSafe row ti = "Song") ∨ getSafe row wi = "") :
    dimStep nowIso ti ji wi gi st row = st := by
  rcases h with h | h
  · simp [dimStep, h]
  · by_cases h1 : getSafe row ti = "" ∨ getSafe row ti = "Song"
    · simp [dimStep, h1]
    · simp [dimStep, h1, h]

theorem eligTriples_cons_skip (ti ji wi : ℕ) (gi : Option ℕ) (row : List Val)
    (rest : List (List Val))
    (h : (getSafe row ti = "" ∨ getSafe row ti = "Song") ∨ getSafe row wi = "") :
    eligTriples ti ji wi gi (row :: rest) = eligTriples ti ji wi gi rest := by
  rcases h with h | h
  · simp [eligTriples, List.filterMap_cons, h]
  · by_cases h1 : getSafe row ti = "" ∨ getSafe row ti = "Song"
    · simp [eligTriples, List.filterMap_cons, h1]
    · simp [eligTriples, List.filterMap_cons, h1, h]

theorem eligTriples_cons_keep (ti ji wi : ℕ) (gi : Option ℕ) (row : List Val)
    (rest : List (List Val))
    (h1 : ¬(getSafe row ti = "" ∨ getSafe row ti = "Song"))
    (h2 : ¬ getSafe row wi = "") :
    eligTriples ti ji wi gi (row :: rest) =
      (getSafe row wi, getSafe row ji,
        match gi with | some i => getSafe row i | none => "") :: eligTriples ti ji wi gi rest := by
  simp [eligTriples, List.filterMap_cons, h1, h2]

theorem dimStep_eligible (nowIso : String) (ti ji wi : ℕ) (gi : Option ℕ) (st : DimSt)
    (row : List Val)
    (h1 : ¬(getSafe row ti = "" ∨ getSafe row ti = "Song"))
    (h2 : ¬ getSafe row wi = "") :
    dimStep nowIso ti ji wi gi st row =
      { rows := st.rows ++
          [[(if alGetD st.seen (getSafe row wi) 0 + 1 = 1 then getSafe row wi
             else getSafe row wi ++ " | " ++ getSafe row ji),
            (match gi with | some i => getSafe row i | none => ""),
            getSafe row wi, getSafe row ji, nowIso, nowIso]],
        seen := alInsert st.seen (getSafe row wi) (alGetD st.seen (getSafe row wi) 0 + 1),
        byKey := alInsert st.byKey (getSafe row wi, getSafe row ji)
          (if alGetD st.seen (getSafe row wi) 0 + 1 = 1 then getSafe row wi
           else getSafe row wi ++ " | " ++ getSafe row ji),
        normIdx :=
          match alGet? st.normIdx (normalizeName (getSafe row wi)) with
          | some _ => st.normIdx
          | none => alInsert st.normIdx (normalizeName (getSafe row wi))
              (if alGetD st.seen (getSafe row wi) 0 + 1 = 1 then getSafe row wi
               else getSafe row wi ++ " | " ++ getSafe row ji) } := by
  simp only [dimStep, makeChoristerId, if_neg h1, if_neg h2]

theorem makeId_eq_spec (seen : List (String × ℕ)) (prev : List (String × String))
    (n j : String)
    (hseen : ∀ m, alGetD seen m 0 = (prev.filter (fun p => p.1 == m)).length) :
    (if alGetD seen n 0 + 1 = 1 then n else n ++ " | " ++ j) = specChoristerId prev n j := by
  rw [hseen n, specChoristerId]
  by_cases h : prev.any (fun p => p.1 == n)
  · rw [if_pos h]
    obtain ⟨a, ha, hpa⟩ := List.any_eq_true.mp h
    have hmem : a ∈ prev.filter (fun p => p.1 == n) := List.mem_filter.mpr ⟨ha, hpa⟩
    have hlen : (prev.filter (fun p => p.1 == n)).length ≠ 0 := by
      intro h0
      rw [List.length_eq_zero] at h0
      exact absurd (h0 ▸ hmem) (List.not_mem_nil a)
    rw [if_neg (by omega)]
  · have hh : prev.any (fun p => p.1 == n) = false := by
      cases he : prev.any (fun p => p.1 == n)
      · rfl
      · exact absurd he h
    have hnil : prev.filter (fun p => p.1 == n) = [] := by
      rw [List.filter_eq_nil_iff]
      intro a ha
      have := List.any_eq_false.mp hh a ha
      simp [this]
    rw [hnil]
    simp [h]

theorem seen_invariant_step (seen : List (String × ℕ)) (prev : List (String × String))
    (n j : String)
    (hseen : ∀ m, alGetD seen m 0 = (prev.filter (fun p => p.1 == m)).length) :
    ∀ m, alGetD (alInsert seen n (alGetD seen n 0 + 1)) m 0 =
      ((prev ++ [(n, j)]).filter (fun p => p.1 == m)).length := by
  intro m
  rw [alGetD_alInsert, List.filter_append, List.length_append]
  by_cases hm : m = n
  · subst hm
    rw [if_pos rfl, hseen m]
    simp [List.filter]
  · rw [if_neg hm, hseen m]
    have : ((n : String) == m) = false := by
      cases he : ((n : String) == m)
      · rfl
      · exact absurd (beq_iff_eq.mp he).symm hm
    simp [List.filter, this]

theorem dimRun_rows (nowIso : String) (ti ji wi : ℕ) (gi : Option ℕ)
    (body : List (List Val)) :
    ∀ (st : DimSt) (prev : List (String × String)),
      (∀ m, alGetD st.seen m 0 = (prev.filter (fun p => p.1 == m)).length) →
      (dimRun nowIso ti ji wi gi st body).rows =
        st.rows ++ (specAssignIds prev (eligTriples ti ji wi gi body)).map
          (fun p => [p.2, p.1.2.2, p.1.1, p.1.2.1, nowIso, nowIso]) := by
  induction body with
  | nil =>
    intro st prev _
    simp [dimRun, eligTriples, specAssignIds]
  | cons row rest ih =>
    intro st prev hseen
    simp only [dimRun]
    by_cases h1 : getSafe row ti = "" ∨ getSafe row ti = "Song"
    · rw [dimStep_skip nowIso ti ji wi gi st row (Or.inl h1),
        eligTriples_cons_skip ti ji wi gi row rest (Or.inl h1)]
      exact ih st prev hseen
    · by_cases h2 : getSafe row wi = ""
      · rw [dimStep_skip nowIso ti ji wi gi st row (Or.inr h2),
          eligTriples_cons_skip ti ji wi gi row rest (Or.inr h2)]
        exact ih st prev hseen
      · rw [dimStep_eligible nowIso ti ji wi gi st row h1 h2,
          eligTriples_cons_keep ti ji wi gi row rest h1 h2]
        rw [ih _ (prev ++ [(getSafe row wi, getSafe row ji)])
          (seen_invariant_step st.seen prev (getSafe row wi) (getSafe row ji) hseen)]
        rw [specAssignIds, List.map_cons]
        rw [makeId_eq_spec st.seen prev (getSafe row wi) (getSafe row ji) hseen]
        simp

/-- Claim C2: identity resolution gives the first occurrence of a
trimmed full name the bare name as chorister_id, and every later
occurrence the id built from the name and that row's joined date — the
produced dim_chorister table equals the table prescribed by the spec's
first-occurrence wording. -/
theorem c2_first_occurrence_ids (nowIso : String) (header : List Val)
    (body : List (List Val)) (ti ji wi : ℕ)
    (hti : indexOfName header "Tag" = some ti)
    (hji : indexOfName header "Joined" = some ji)
    (hwi : indexOfName header "Who" = some wi) :
    (buildDimChorister nowIso (header :: body)).1 =
      DIM_CHORISTER_HEADER ::
        specDimRows nowIso (eligTriples ti ji wi (indexOfName header "tgid") body) := by
  simp only [buildDimChorister, hti, hji, hwi]
  rw [specDimRows,
    dimRun_rows nowIso ti ji wi (indexOfName header "tgid") body ⟨[], [], [], []⟩ []
      (by intro m; simp [alGetD, alGet?, List.filter])]
  simp

/-- Witness for claim C2 at a concrete input with a repeated name. -/
theorem c2_witness :
    (buildDimChorister "T"
      ([Val.str "Tag", Val.str "Joined", Val.str "tgid", Val.str "Who"] ::
        [[Val.str "alto", Val.str "01.01.24", Val.str "11", Val.str "Ann"],
         [Val.str "soprano", Val.str "02.02.24", Val.str "22", Val.str "Ann"],
         [Val.str "bass", Val.str "01.01.24", Val.null, Val.str "Bob"]])).1 =
      DIM_CHORISTER_HEADER ::
        specDimRows "T" (eligTriples 0 1 3
          (indexOfName [Val.str "Tag", Val.str "Joined", Val.str "tgid", Val.str "Who"] "tgid")
          [[Val.str "alto", Val.str "01.01.24", Val.str "11", Val.str "Ann"],
           [Val.str "soprano", Val.str "02.02.24", Val.str "22", Val.str "Ann"],
           [Val.str "bass", Val.str "01.01.24", Val.null, Val.str "Bob"]]) :=
  c2_first_occurrence_ids "T"
    [Val.str "Tag", Val.str "Joined", Val.str "tgid", Val.str "Who"]
    [[Val.str "alto", Val.str "01.01.24", Val.str "11", Val.str "Ann"],
     [Val.str "soprano", Val.str "02.02.24", Val.str "22", Val.str "Ann"],
     [Val.str "bass", Val.str "01.01.24", Val.null, Val.str "Bob"]]
    0 1 3 (by decide) (by decide) (by decide)

/-! Claim C3: uniqueness of chorister ids. -/

/-- Counterexample to claim C3: three eligible rows carrying the same
full name and the same joined date produce the ids Ann,
Ann | 01.01.24, Ann | 01.01.24 — the second and third records of the
dim_chorister table share a chorister_id. -/
theorem c3_counterexample :
    ¬ ((buildDimChorister "T" exDupValues).1.tail.map (fun r => r.headD "")).Nodup := by
  decide

theorem string_data_inj {a b : String} (h : a.data = b.data) : a = b := by
  cases a; cases b; exact congrArg String.mk h

theorem pipe_split_unique : ∀ (a c b d : List Char), '|' ∉ a → '|' ∉ c →
    a ++ ' ' :: '|' :: ' ' :: b = c ++ ' ' :: '|' :: ' ' :: d → a = c ∧ b = d := by
  intro a
  induction a with
  | nil =>
    intro c b d _ hc heq
    cases c with
    | nil =>
      simp only [List.nil_append] at heq
      injection heq with _ heq2
      injection heq2 with _ heq3
      injection heq3 with _ heq4
      exact ⟨rfl, heq4⟩
    | cons x c2 =>
      simp only [List.nil_append, List.cons_append] at heq
      injection heq with hx heq2
      cases c2 with
      | nil =>
        simp only [List.nil_append] at heq2
        injection heq2 with hy _
        exact absurd hy (by decide)
      | cons y c3 =>
        simp only [List.cons_append] at heq2
        injection heq2 with hy _
        exact absurd (show '|' ∈ x :: y :: c3 by
          rw [← hy]; exact List.mem_cons_of_mem x (List.mem_cons_self _ _)) hc
  | cons x a2 ih =>
    intro c b d ha hc heq
    cases c with
    | nil =>
      simp only [List.cons_append, List.nil_append] at heq
      injection heq with hx heq2
      cases a2 with
      | nil =>
        simp only [List.nil_append] at heq2
        injection heq2 with hy _
        exact absurd hy (by decide)
      | cons y a3 =>
        simp only [List.cons_append] at heq2
        injection heq2 with hy _
        exact absurd (show '|' ∈ x :: y :: a3 by
          rw [← hy]; exact List.mem_cons_of_mem x (List.mem_cons_self _ _)) ha
    | cons z c2 =>
      simp only [List.cons_append] at heq
      injection heq with hx heq2
      have ha2 : '|' ∉ a2 := fun hm => ha (List.mem_cons_of_mem x hm)
      have hc2 : '|' ∉ c2 := fun hm => hc (List.mem_cons_of_mem z hm)
      obtain ⟨h1, h2⟩ := ih c2 b d ha2 hc2 heq2
      exact ⟨by rw [hx, h1], h2⟩

theorem sep_append_data (n j : String) :
    (n ++ " | " ++ j).data = n.data ++ ' ' :: '|' :: ' ' :: j.data := by
  rw [String.data_append, String.data_append]
  rw [List.append_assoc]
  rfl

theorem sep_eq_cases {n1 j1 n2 j2 : String} (h1 : '|' ∉ n1.data) (h2 : '|' ∉ n2.data)
    (heq : n1 ++ " | " ++ j1 = n2 ++ " | " ++ j2) : n1 = n2 ∧ j1 = j2 := by
  have hd : (n1 ++ " | " ++ j1).data = (n2 ++ " | " ++ j2).data := by rw [heq]
  rw [sep_append_data, sep_append_data] at hd
  obtain ⟨ha, hb⟩ := pipe_split_unique n1.data n2.data j1.data j2.data h1 h2 hd
  exact ⟨string_data_inj ha, string_data_inj hb⟩

theorem bare_ne_sep {n2 n1 j1 : String} (h : '|' ∉ n2.data) : n2 ≠ n1 ++ " | " ++ j1 := by
  intro heq
  apply h
  rw [heq, sep_append_data]
  exact List.mem_append.mpr (Or.inr (List.mem_cons_of_mem _ (List.mem_cons_self _ _)))

theorem mem_specAssignIds : ∀ (ts : List (String × String × String))
    (prev : List (String × String)) (t : String × String × String) (id : String),
    (t, id) ∈ specAssignIds prev ts →
    t ∈ ts ∧ (id = t.1 ∨ id = t.1 ++ " | " ++ t.2.1) := by
  intro ts
  induction ts with
  | nil => intro prev t id h; simp [specAssignIds] at h
  | cons t0 ts2 ih =>
    intro prev t id h
    simp only [specAssignIds] at h
    rcases List.mem_cons.mp h with h | h
    · injection h with h1 h2
      subst h1
      refine ⟨List.mem_cons_self _ _, ?_⟩
      rw [h2, specChoristerId]
      by_cases hany : prev.any (fun p => p.1 == t.1)
      · rw [if_pos hany]; exact Or.inr rfl
      · rw [if_neg hany]; exact Or.inl rfl
    · obtain ⟨hm, hs⟩ := ih _ t id h
      exact ⟨List.mem_cons_of_mem t0 hm, hs⟩

theorem specAssignIds_appended_of_prev : ∀ (ts : List (String × String × String))
    (prev : List (String × String)) (t : String × String × String) (id : String),
    (t, id) ∈ specAssignIds prev ts → (∃ p ∈ prev, p.1 = t.1) →
    id = t.1 ++ " | " ++ t.2.1 := by
  intro ts
  induction ts with
  | nil => intro prev t id h _; simp [specAssignIds] at h
  | cons t0 ts2 ih =>
    intro prev t id h hex
    simp only [specAssignIds] at h
    rcases List.mem_cons.mp h with h | h
    · injection h with h1 h2
      subst h1
      rw [h2, specChoristerId]
      obtain ⟨p, hp, hp1⟩ := hex
      have hany : prev.any (fun q => q.1 == t.1) = true :=
        List.any_eq_true.mpr ⟨p, hp, beq_iff_eq.mpr hp1⟩
      rw [if_pos hany]
    · refine ih _ t id h ?_
      obtain ⟨p, hp, hp1⟩ := hex
      exact ⟨p, List.mem_append.mpr (Or.inl hp), hp1⟩

theorem specAssignIds_ids_nodup : ∀ (ts : List (String × String × String))
    (prev : List (String × String)),
    List.Pairwise (fun a b => a.1 = b.1 → a.2.1 ≠ b.2.1) ts →
    (∀ t ∈ ts, '|' ∉ (t.1 : String).data ∧ '|' ∉ (t.2.1 : String).data) →
    ((specAssignIds prev ts).map (fun p => p.2)).Nodup := by
  intro ts
  induction ts with
  | nil => intro prev _ _; simp [specAssignIds]
  | cons t0 ts2 ih =>
    intro prev hpair hpipe
    rw [specAssignIds, List.map_cons]
    rw [List.nodup_cons]
    have hpair2 := (List.pairwise_cons.mp hpair).2
    have hrel := (List.pairwise_cons.mp hpair).1
    have hpipe0 := hpipe t0 (List.mem_cons_self t0 ts2)
    have hpipe2 : ∀ t ∈ ts2, '|' ∉ (t.1 : String).data ∧ '|' ∉ (t.2.1 : String).data :=
      fun t ht => hpipe t (List.mem_cons_of_mem t0 ht)
    refine ⟨?_, ih _ hpair2 hpipe2⟩
    intro hmem
    obtain ⟨p, hp, hpid0⟩ := List.mem_map.mp hmem
    obtain ⟨t, id⟩ := p
    have hpid : id = specChoristerId prev t0.1 t0.2.1 := hpid0
    obtain ⟨htm, hshape⟩ := mem_specAssignIds ts2 _ t id hp
    have hpipet := hpipe2 t htm
    by_cases hname : t.1 = t0.1
    · have happ : id = t.1 ++ " | " ++ t.2.1 :=
        specAssignIds_appended_of_prev ts2 _ t id hp
          ⟨(t0.1, t0.2.1), List.mem_append.mpr (Or.inr (List.mem_cons_self _ _)), hname.symm⟩
      rw [specChoristerId] at hpid
      by_cases hany : prev.any (fun p => p.1 == t0.1)
      · rw [if_pos hany] at hpid
        have heq : t0.1 ++ " | " ++ t0.2.1 = t.1 ++ " | " ++ t.2.1 := by
          rw [← hpid, ← happ]
        obtain ⟨_, hj⟩ := sep_eq_cases hpipe0.1 hpipet.1 heq
        exact hrel t htm hname.symm hj
      · rw [if_neg hany] at hpid
        have hcl : t0.1 = t.1 ++ " | " ++ t.2.1 := by rw [← hpid, ← happ]
        exact bare_ne_sep hpipe0.1 hcl
    · rcases hshape with hbare | happ
      · rw [specChoristerId] at hpid
        by_cases hany : prev.any (fun p => p.1 == t0.1)
        · rw [if_pos hany] at hpid
          have hcl : t.1 = t0.1 ++ " | " ++ t0.2.1 := by rw [← hbare, hpid]
          exact bare_ne_sep hpipet.1 hcl
        · rw [if_neg hany] at hpid
          exact hname (by rw [← hbare, hpid])
      · rw [specChoristerId] at hpid
        by_cases hany : prev.any (fun p => p.1 == t0.1)
        · rw [if_pos hany] at hpid
          have heq : t.1 ++ " | " ++ t.2.1 = t0.1 ++ " | " ++ t0.2.1 := by
            rw [← happ, hpid]
          exact hname (sep_eq_cases hpipet.1 hpipe0.1 heq).1
        · rw [if_neg hany] at hpid
          have hcl : t0.1 = t.1 ++ " | " ++ t.2.1 := by rw [← hpid, ← happ]
          exact bare_ne_sep hpipe0.1 hcl

/-- Amended claim C3: provided that any two eligible rows sharing a full
name carry distinct joined dates, and that no eligible row's full name
or joined date contains the pipe character, the dim_chorister table of
one run contains no two records with the same chorister_id (the first
occurrence of a name gets the bare name, each later one a distinct
disambiguated id).  Without those provisos the claim fails, see the
counterexample. -/
theorem c3_amended_unique_ids (nowIso : String) (header : List Val)
    (body : List (List Val)) (ti ji wi : ℕ)
    (hti : indexOfName header "Tag" = some ti)
    (hji : indexOfName header "Joined" = some ji)
    (hwi : indexOfName header "Who" = some wi)
    (hpair : List.Pairwise (fun a b => a.1 = b.1 → a.2.1 ≠ b.2.1)
      (eligTriples ti ji wi (indexOfName header "tgid") body))
    (hpipe : ∀ t ∈ eligTriples ti ji wi (indexOfName header "tgid") body,
      '|' ∉ (t.1 : String).data ∧ '|' ∉ (t.2.1 : String).data) :
    ((buildDimChorister nowIso (header :: body)).1.tail.map (fun r => r.headD "")).Nodup := by
  simp only [buildDimChorister, hti, hji, hwi]
  rw [dimRun_rows nowIso ti ji wi (indexOfName header "tgid") body ⟨[], [], [], []⟩ []
    (by intro m; simp [alGetD, alGet?, List.filter])]
  simp only [List.nil_append, List.tail_cons, List.map_map]
  have hcomp : ((fun r : List String => r.headD "") ∘
      (fun p : (String × String × String) × String =>
        [p.2, p.1.2.2, p.1.1, p.1.2.1, nowIso, nowIso])) = fun p => p.2 := by
    funext p; rfl
  rw [hcomp]
  exact specAssignIds_ids_nodup _ [] hpair hpipe

/-- Witness for the amended claim C3 at a concrete input with a repeated
name under distinct joined dates. -/
theorem c3_amended_witness :
    ((buildDimChorister "T"
      ([Val.str "Tag", Val.str "Joined", Val.str "tgid", Val.str "Who"] ::
        [[Val.str "alto", Val.str "01.01.24", Val.str "11", Val.str "Ann"],
         [Val.str "soprano", Val.str "02.02.24", Val.str "22", Val.str "Ann"],
         [Val.str "bass", Val.str "01.01.24", Val.null, Val.str "Bob"]])).1.tail.map
      (fun r => r.headD "")).Nodup :=
  c3_amended_unique_ids "T"
    [Val.str "Tag", Val.str "Joined", Val.str "tgid", Val.str "Who"]
    [[Val.str "alto", Val.str "01.01.24", Val.str "11", Val.str "Ann"],
     [Val.str "soprano", Val.str "02.02.24", Val.str "22", Val.str "Ann"],
     [Val.str "bass", Val.str "01.01.24", Val.null, Val.str "Bob"]]
    0 1 3 (by decide) (by decide) (by decide) (by decide) (by decide)

/-! Claim C4: the attendance cell policy. -/

theorem parseHours_of_number (rawVal : Val) (cid iso : String)
    (hne : cellIsEmpty rawVal = false) (q : ℚ) (hq : cellNumber rawVal = some q)
    (hnn : 0 ≤ q) : parseHoursStrict rawVal cid iso = .ok q := by
  cases rawVal with
  | null => simp [cellIsEmpty] at hne
  | num q0 =>
    have hq0 : q0 = q := by simpa [cellNumber] using hq
    subst hq0
    simp only [parseHoursStrict, if_neg (not_lt.mpr hnn)]
  | str s =>
    have hs : ¬ pyStrip s = "" := by simpa [cellIsEmpty] using hne
    have hs0 : ¬ s = "" := fun h => hs (by rw [h]; rfl)
    simp only [parseHoursStrict, if_neg hs0, if_neg hs]
    simp only [cellNumber] at hq
    rw [hq]
    have hnl : ¬ q < 0 := not_lt.mpr hnn
    simp [hnl]

theorem parseHours_err (rawVal : Val) (cid iso : String)
    (hne : cellIsEmpty rawVal = false)
    (hbad : cellNumber rawVal = none ∨ ∃ q : ℚ, cellNumber rawVal = some q ∧ q < 0) :
    parseHoursStrict rawVal cid iso = .error (.negativeHours cid iso rawVal) ∨
    parseHoursStrict rawVal cid iso = .error (.unparseableHours cid iso rawVal) := by
  cases rawVal with
  | null => simp [cellIsEmpty] at hne
  | num q0 =>
    rcases hbad with hb | ⟨q, hql, hq⟩
    · simp [cellNumber] at hb
    · have hq0 : q0 = q := by simpa [cellNumber] using hql
      subst hq0
      exact Or.inl (by simp only [parseHoursStrict, if_pos hq])
  | str s =>
    have hs : ¬ pyStrip s = "" := by simpa [cellIsEmpty] using hne
    have hs0 : ¬ s = "" := fun h => hs (by rw [h]; rfl)
    simp only [cellNumber] at hbad
    rcases hbad with hb | ⟨q, hql, hq⟩
    · refine Or.inr ?_
      simp only [parseHoursStrict, if_neg hs0, if_neg hs]
      rw [hb]
    · refine Or.inl ?_
      simp only [parseHoursStrict, if_neg hs0, if_neg hs]
      rw [hql]
      simp [hq]

/-- Claim C4: for a cell of an eligible chorister row under a retained
date column, an empty cell yields the missed fact (0 hours, missed flag
1); a non-empty cell that parses as a non-negative number (comma
accepted as decimal separator, so 2,5 parses to 5/2) yields that value
with missed flag 0; any other non-empty cell (unparseable or negative)
is a fatal error carrying the chorister id, the rehearsal date and the
raw cell value. -/
theorem c4_attendance_cell_policy (nowIso cid iso : String) (row : List Val) (ci : ℕ)
    (rawVal : Val)
    (hraw : (match row[ci]? with | some v => v | none => Val.null) = rawVal) :
    (cellIsEmpty rawVal = true →
      cellsForRow nowIso cid row [(ci, iso)] = .ok
        [{ rehearsalDate := iso, choristerId := cid, hoursAttended := 0,
           missedFlag := 1, loadTs := nowIso }]) ∧
    (∀ q : ℚ, cellIsEmpty rawVal = false → cellNumber rawVal = some q → 0 ≤ q →
      cellsForRow nowIso cid row [(ci, iso)] = .ok
        [{ rehearsalDate := iso, choristerId := cid, hoursAttended := q,
           missedFlag := 0, loadTs := nowIso }]) ∧
    (cellIsEmpty rawVal = false →
      (cellNumber rawVal = none ∨ ∃ q : ℚ, cellNumber rawVal = some q ∧ q < 0) →
      (cellsForRow nowIso cid row [(ci, iso)] = .error (.negativeHours cid iso rawVal) ∨
       cellsForRow nowIso cid row [(ci, iso)] = .error (.unparseableHours cid iso rawVal))) ∧
    parseHoursStrict (.str "2,5") cid iso = .ok (mkRat 5 2) := by
  refine ⟨?_, ?_, ?_, rfl⟩
  · intro hempty
    simp [cellsForRow, hraw, hempty, Except.map]
  · intro q hne hq hnn
    have hp := parseHours_of_number rawVal cid iso hne q hq hnn
    simp [cellsForRow, hraw, hne, hp, Except.map]
  · intro hne hbad
    rcases parseHours_err rawVal cid iso hne hbad with h | h
    · exact Or.inl (by simp [cellsForRow, hraw, hne, h])
    · exact Or.inr (by simp [cellsForRow, hraw, hne, h])

/-- Witness for claim C4 at a concrete unparseable cell. -/
theorem c4_witness :
    cellsForRow "T" "c" [Val.str "abc"] [(0, "2024-06-16")] =
        .error (.negativeHours "c" "2024-06-16" (.str "abc")) ∨
    cellsForRow "T" "c" [Val.str "abc"] [(0, "2024-06-16")] =
        .error (.unparseableHours "c" "2024-06-16" (.str "abc")) :=
  (c4_attendance_cell_policy "T" "c" "2024-06-16" [Val.str "abc"] 0 (Val.str "abc")
    (by decide)).2.2.1 (by decide) (Or.inl (by decide))

/-! Claim C5: duplicate normalized header dates are fatal, unparseable
headers are silently dropped. -/

theorem alGet?_some_mem {α β : Type} [DecidableEq α] :
    ∀ (m : List (α × β)) (k : α) (v : β), alGet? m k = some v → (k, v) ∈ m := by
  intro m
  induction m with
  | nil => intro k v h; simp [alGet?] at h
  | cons p rest ih =>
    intro k v h
    obtain ⟨k', v'⟩ := p
    by_cases hk : k' = k
    · subst hk
      have hv : v' = v := by simpa [alGet?] using h
      exact List.mem_cons.mpr (Or.inl (by rw [hv]))
    · simp only [alGet?, if_neg hk] at h
      exact List.mem_cons.mpr (Or.inr (ih k v h))

theorem except_map_error {ε α β : Type} (f : α → β) (x : Except ε α) (e : ε)
    (h : x.map f = .error e) : x = .error e := by
  cases x with
  | error e2 =>
    have : e2 = e := by simpa [Except.map] using h
    rw [this]
  | ok a => simp [Except.map] at h

theorem except_map_ok {ε α β : Type} (f : α → β) (x : Except ε α) (b : β)
    (h : x.map f = .ok b) : ∃ a, x = .ok a ∧ b = f a := by
  cases x with
  | error e2 => simp [Except.map] at h
  | ok a =>
    refine ⟨a, rfl, ?_⟩
    have : f a = b := by simpa [Except.map] using h
    rw [this]

theorem scanCols_error_shape (header : List Val) :
    ∀ (idxs : List ℕ) (seen : List (String × ℕ)) (e : EtlError),
    (∀ p ∈ seen, getSafe header p.2 ≠ "" ∧ normalizeDateStr (getSafe header p.2) = p.1 ∧
      p.1 ≠ "") →
    (∀ p ∈ seen, p.2 ∉ idxs) →
    idxs.Nodup →
    scanCols header idxs seen = .error e →
    ∃ iso i j, e = .dupDate iso i j (getSafe header j) ∧ i ≠ j ∧ j ∈ idxs ∧
      (i ∈ idxs ∨ ∃ p ∈ seen, p.2 = i) ∧
      getSafe header i ≠ "" ∧ getSafe header j ≠ "" ∧
      normalizeDateStr (getSafe header i) = iso ∧
      normalizeDateStr (getSafe header j) = iso ∧ iso ≠ "" := by
  intro idxs
  induction idxs with
  | nil => intro seen e _ _ _ h; simp [scanCols] at h
  | cons idx rest ih =>
    intro seen e hseen hdisj hnd h
    have hndr : rest.Nodup := (List.nodup_cons.mp hnd).2
    have hidxr : idx ∉ rest := (List.nodup_cons.mp hnd).1
    simp only [scanCols] at h
    by_cases hd : getSafe header idx = ""
    · rw [if_pos hd] at h
      obtain ⟨iso, i, j, hrest⟩ := ih seen e hseen
        (fun p hp => fun hm => hdisj p hp (List.mem_cons_of_mem idx hm)) hndr h
      exact ⟨iso, i, j, hrest.1, hrest.2.1, List.mem_cons_of_mem idx hrest.2.2.1,
        (by rcases hrest.2.2.2.1 with hi | hi
            · exact Or.inl (List.mem_cons_of_mem idx hi)
            · exact Or.inr hi),
        hrest.2.2.2.2.1, hrest.2.2.2.2.2.1, hrest.2.2.2.2.2.2.1,
        hrest.2.2.2.2.2.2.2.1, hrest.2.2.2.2.2.2.2.2⟩
    · rw [if_neg hd] at h
      by_cases hi : normalizeDateStr (getSafe header idx) = ""
      · rw [if_pos hi] at h
        obtain ⟨iso, i, j, hrest⟩ := ih seen e hseen
          (fun p hp => fun hm => hdisj p hp (List.mem_cons_of_mem idx hm)) hndr h
        exact ⟨iso, i, j, hrest.1, hrest.2.1, List.mem_cons_of_mem idx hrest.2.2.1,
          (by rcases hrest.2.2.2.1 with hii | hii
              · exact Or.inl (List.mem_cons_of_mem idx hii)
              · exact Or.inr hii),
          hrest.2.2.2.2.1, hrest.2.2.2.2.2.1, hrest.2.2.2.2.2.2.1,
          hrest.2.2.2.2.2.2.2.1, hrest.2.2.2.2.2.2.2.2⟩
      · rw [if_neg hi] at h
        rcases hget : alGet? seen (normalizeDateStr (getSafe header idx)) with _ | firstIdx
        · rw [hget] at h
          have h2 := except_map_error _ _ e h
          have hseen2 : ∀ p ∈ alInsert seen (normalizeDateStr (getSafe header idx)) idx,
              getSafe header p.2 ≠ "" ∧ normalizeDateStr (getSafe header p.2) = p.1 ∧
              p.1 ≠ "" := by
            intro p hp
            rcases mem_alInsert _ _ _ p hp with hp1 | hp1
            · rw [hp1]
              exact ⟨hd, rfl, hi⟩
            · exact hseen p hp1
          have hdisj2 : ∀ p ∈ alInsert seen (normalizeDateStr (getSafe header idx)) idx,
              p.2 ∉ rest := by
            intro p hp
            rcases mem_alInsert _ _ _ p hp with hp1 | hp1
            · rw [hp1]; exact hidxr
            · exact fun hm => hdisj p hp1 (List.mem_cons_of_mem idx hm)
          obtain ⟨iso, i, j, hsh⟩ := ih _ e hseen2 hdisj2 hndr h2
          refine ⟨iso, i, j, hsh.1, hsh.2.1, List.mem_cons_of_mem idx hsh.2.2.1, ?_,
            hsh.2.2.2.2.1, hsh.2.2.2.2.2.1, hsh.2.2.2.2.2.2.1,
            hsh.2.2.2.2.2.2.2.1, hsh.2.2.2.2.2.2.2.2⟩
          rcases hsh.2.2.2.1 with hii | ⟨p, hp, hpi⟩
          · exact Or.inl (List.mem_cons_of_mem idx hii)
          · rcases mem_alInsert _ _ _ p hp with hp1 | hp1
            · exact Or.inl (by rw [← hpi, hp1]; exact List.mem_cons_self _ _)
            · exact Or.inr ⟨p, hp1, hpi⟩
        · rw [hget] at h
          have he : e = .dupDate (normalizeDateStr (getSafe header idx)) firstIdx idx
              (getSafe header idx) := by
            have := h
            injection this with h1
            rw [← h1]
          have hmem := alGet?_some_mem seen _ firstIdx hget
          have hfs := hseen _ hmem
          have hine : firstIdx ≠ idx :=
            fun hh => hdisj _ hmem (hh ▸ List.mem_cons_self idx rest)
          exact ⟨normalizeDateStr (getSafe header idx), firstIdx, idx, he, hine,
            List.mem_cons_self idx rest, Or.inr ⟨_, hmem, rfl⟩,
            hfs.1, hd, hfs.2.1, rfl, hi⟩

theorem scanCols_ok_inj (header : List Val) :
    ∀ (idxs : List ℕ) (seen : List (String × ℕ)) (cols : List (ℕ × String)),
    scanCols header idxs seen = .ok cols →
    (∀ i ∈ idxs, getSafe header i ≠ "" → normalizeDateStr (getSafe header i) ≠ "" →
      alGet? seen (normalizeDateStr (getSafe header i)) = none) ∧
    (∀ i ∈ idxs, ∀ j ∈ idxs, getSafe header i ≠ "" →
      normalizeDateStr (getSafe header i) ≠ "" → getSafe header j ≠ "" →
      normalizeDateStr (getSafe header j) ≠ "" →
      normalizeDateStr (getSafe header i) = normalizeDateStr (getSafe header j) → i = j) := by
  intro idxs
  induction idxs with
  | nil => intro seen cols _; exact ⟨by simp, by simp⟩
  | cons idx rest ih =>
    intro seen cols h
    simp only [scanCols] at h
    by_cases hd : getSafe header idx = ""
    · rw [if_pos hd] at h
      obtain ⟨habs, hinj⟩ := ih seen cols h
      constructor
      · intro i hi hv1 hv2
        rcases List.mem_cons.mp hi with hi | hi
        · exact absurd (hi ▸ hv1) (by simp [hd])
        · exact habs i hi hv1 hv2
      · intro i hi j hj hv1 hv2 hv3 hv4 he
        rcases List.mem_cons.mp hi with hi | hi
        · exact absurd (hi ▸ hv1) (by simp [hd])
        · rcases List.mem_cons.mp hj with hj | hj
          · exact absurd (hj ▸ hv3) (by simp [hd])
          · exact hinj i hi j hj hv1 hv2 hv3 hv4 he
    · rw [if_neg hd] at h
      by_cases hi0 : normalizeDateStr (getSafe header idx) = ""
      · rw [if_pos hi0] at h
        obtain ⟨habs, hinj⟩ := ih seen cols h
        constructor
        · intro i hi hv1 hv2
          rcases List.mem_cons.mp hi with hi | hi
          · exact absurd (hi ▸ hv2) (by simp [hi0])
          · exact habs i hi hv1 hv2
        · intro i hi j hj hv1 hv2 hv3 hv4 he
          rcases List.mem_cons.mp hi with hi | hi
          · exact absurd (hi ▸ hv2) (by simp [hi0])
          · rcases List.mem_cons.mp hj with hj | hj
            · exact absurd (hj ▸ hv4) (by simp [hi0])
            · exact hinj i hi j hj hv1 hv2 hv3 hv4 he
      · rw [if_neg hi0] at h
        rcases hget : alGet? seen (normalizeDateStr (getSafe header idx)) with _ | firstIdx
        · rw [hget] at h
          obtain ⟨cols2, hok, _⟩ := except_map_ok _ _ cols h
          obtain ⟨habs, hinj⟩ := ih _ cols2 hok
          have habs2 : ∀ i ∈ rest, getSafe header i ≠ "" →
              normalizeDateStr (getSafe header i) ≠ "" →
              normalizeDateStr (getSafe header i) ≠ normalizeDateStr (getSafe header idx) ∧
              alGet? seen (normalizeDateStr (getSafe header i)) = none := by
            intro i hi hv1 hv2
            have := habs i hi hv1 hv2
            rw [alGet?_alInsert] at this
            by_cases hne : normalizeDateStr (getSafe header i) =
                normalizeDateStr (getSafe header idx)
            · rw [if_pos hne] at this; exact absurd this (by simp)
            · rw [if_neg hne] at this; exact ⟨hne, this⟩
          constructor
          · intro i hi hv1 hv2
            rcases List.mem_cons.mp hi with hi | hi
            · rw [hi]; exact hget
            · exact (habs2 i hi hv1 hv2).2
          · intro i hi j hj hv1 hv2 hv3 hv4 he
            rcases List.mem_cons.mp hi with hi | hi
            · rcases List.mem_cons.mp hj with hj | hj
              · rw [hi, hj]
              · exact absurd (hi ▸ he).symm ((habs2 j hj hv3 hv4).1)
            · rcases List.mem_cons.mp hj with hj | hj
              · exact absurd (hj ▸ he) ((habs2 i hi hv1 hv2).1)
              · exact hinj i hi j hj hv1 hv2 hv3 hv4 he
        · rw [hget] at h
          exact absurd h (by simp)

theorem scanCols_noDup_ok (header : List Val) :
    ∀ (idxs : List ℕ) (seen : List (String × ℕ)),
    idxs.Nodup →
    (∀ i ∈ idxs, ∀ j ∈ idxs, i ≠ j → getSafe header i ≠ "" →
      normalizeDateStr (getSafe header i) ≠ "" → getSafe header j ≠ "" →
      normalizeDateStr (getSafe header j) ≠ "" →
      normalizeDateStr (getSafe header i) ≠ normalizeDateStr (getSafe header j)) →
    (∀ i ∈ idxs, getSafe header i ≠ "" → normalizeDateStr (getSafe header i) ≠ "" →
      alGet? seen (normalizeDateStr (getSafe header i)) = none) →
    scanCols header idxs seen = .ok (idxs.filterMap (fun i =>
      if getSafe header i = "" then none
      else if normalizeDateStr (getSafe header i) = "" then none
      else some (i, normalizeDateStr (getSafe header i)))) := by
  intro idxs
  induction idxs with
  | nil => intro seen _ _ _; simp [scanCols]
  | cons idx rest ih =>
    intro seen hnd hdist habs
    have hndr : rest.Nodup := (List.nodup_cons.mp hnd).2
    have hidxr : idx ∉ rest := (List.nodup_cons.mp hnd).1
    simp only [scanCols, List.filterMap_cons]
    by_cases hd : getSafe header idx = ""
    · rw [if_pos hd, if_pos hd]
      exact ih seen hndr
        (fun i hi j hj => hdist i (List.mem_cons_of_mem idx hi) j (List.mem_cons_of_mem idx hj))
        (fun i hi => habs i (List.mem_cons_of_mem idx hi))
    · rw [if_neg hd, if_neg hd]
      by_cases hi0 : normalizeDateStr (getSafe header idx) = ""
      · rw [if_pos hi0, if_pos hi0]
        exact ih seen hndr
          (fun i hi j hj => hdist i (List.mem_cons_of_mem idx hi) j (List.mem_cons_of_mem idx hj))
          (fun i hi => habs i (List.mem_cons_of_mem idx hi))
      · rw [if_neg hi0, if_neg hi0]
        rw [habs idx (List.mem_cons_self idx rest) hd hi0]
        have habs2 : ∀ i ∈ rest, getSafe header i ≠ "" →
            normalizeDateStr (getSafe header i) ≠ "" →
            alGet? (alInsert seen (normalizeDateStr (getSafe header idx)) idx)
              (normalizeDateStr (getSafe header i)) = none := by
          intro i hi hv1 hv2
          rw [alGet?_alInsert]
          have hne : normalizeDateStr (getSafe header i) ≠
              normalizeDateStr (getSafe header idx) := by
            refine hdist i (List.mem_cons_of_mem idx hi) idx (List.mem_cons_self idx rest)
              (fun hh => hidxr (hh ▸ hi)) hv1 hv2 hd hi0
          rw [if_neg hne]
          exact habs i (List.mem_cons_of_mem idx hi) hv1 hv2
        rw [ih _ hndr
          (fun i hi j hj => hdist i (List.mem_cons_of_mem idx hi) j (List.mem_cons_of_mem idx hj))
          habs2]
        rfl

/-- Claim C5: if two distinct header columns at or past the fixed offset
normalize to the same date, the attendance builder raises a fatal
duplicate-date error before producing any fact row (the whole call
returns the error), and the error names two distinct column positions
that both normalize to that date; a non-empty header that fails to
normalize is merely dropped from the retained columns, never an
error. -/
theorem c5_duplicate_dates_fatal (nowIso : String) (header : List Val)
    (body : List (List Val)) (byKey : List ((String × String) × String)) (ti ji wi : ℕ)
    (hti : indexOfName header "Tag" = some ti)
    (hji : indexOfName header "Joined" = some ji)
    (hwi : indexOfName header "Who" = some wi) :
    ((∃ i ∈ List.range' 4 (header.length - 4), ∃ j ∈ List.range' 4 (header.length - 4),
        i ≠ j ∧ getSafe header i ≠ "" ∧ normalizeDateStr (getSafe header i) ≠ "" ∧
        getSafe header j ≠ "" ∧ normalizeDateStr (getSafe header j) ≠ "" ∧
        normalizeDateStr (getSafe header i) = normalizeDateStr (getSafe header j)) →
      ∃ iso i2 j2, buildFactAttendance nowIso (header :: body) byKey =
          .error (.dupDate iso i2 j2 (getSafe header j2)) ∧ i2 ≠ j2 ∧
        i2 ∈ List.range' 4 (header.length - 4) ∧ j2 ∈ List.range' 4 (header.length - 4) ∧
        getSafe header i2 ≠ "" ∧ getSafe header j2 ≠ "" ∧
        normalizeDateStr (getSafe header i2) = iso ∧
        normalizeDateStr (getSafe header j2) = iso ∧ iso ≠ "") ∧
    ((∀ i ∈ List.range' 4 (header.length - 4), ∀ j ∈ List.range' 4 (header.length - 4),
        i ≠ j → getSafe header i ≠ "" → normalizeDateStr (getSafe header i) ≠ "" →
        getSafe header j ≠ "" → normalizeDateStr (getSafe header j) ≠ "" →
        normalizeDateStr (getSafe header i) ≠ normalizeDateStr (getSafe header j)) →
      scanCols header (List.range' 4 (header.length - 4)) [] =
        .ok (specRetainedCols header)) := by
  constructor
  · intro hdup
    obtain ⟨i, hi, j, hj, hne, hv1, hv2, hv3, hv4, heq⟩ := hdup
    rcases hscan : scanCols header (List.range' 4 (header.length - 4)) [] with e | cols
    · obtain ⟨iso, i2, j2, he, hij, hjmem, hiprov, hg1, hg2, hn1, hn2, hiso⟩ :=
        scanCols_error_shape header (List.range' 4 (header.length - 4)) [] e
          (by intro p hp; simp at hp) (by intro p hp; simp at hp)
          (List.nodup_range' 4 (header.length - 4)) hscan
      refine ⟨iso, i2, j2, ?_, hij, ?_, hjmem, hg1, hg2, hn1, hn2, hiso⟩
      · simp only [buildFactAttendance, hti, hji, hwi]
        rw [hscan, he]
      · rcases hiprov with hh | ⟨p, hp, _⟩
        · exact hh
        · simp at hp
    · exact absurd ((scanCols_ok_inj header _ [] cols hscan).2 i hi j hj hv1 hv2 hv3 hv4 heq) hne
  · intro hdist
    have h := scanCols_noDup_ok header (List.range' 4 (header.length - 4)) []
      (List.nodup_range' 4 (header.length - 4)) hdist (by intro i _ _ _; simp [alGet?])
    exact h

/-- Witness for claim C5 at a concrete header carrying 16.06.24 and
2024-06-16. -/
theorem c5_witness :
    ∃ iso i2 j2, buildFactAttendance "T"
        ([Val.str "Tag", Val.str "Joined", Val.str "tgid", Val.str "Who",
          Val.str "16.06.24", Val.str "2024-06-16"] :: []) [] =
        .error (.dupDate iso i2 j2 (getSafe
          [Val.str "Tag", Val.str "Joined", Val.str "tgid", Val.str "Who",
           Val.str "16.06.24", Val.str "2024-06-16"] j2)) ∧ i2 ≠ j2 ∧
      i2 ∈ List.range' 4 2 ∧ j2 ∈ List.range' 4 2 ∧
      getSafe [Val.str "Tag", Val.str "Joined", Val.str "tgid", Val.str "Who",
        Val.str "16.06.24", Val.str "2024-06-16"] i2 ≠ "" ∧
      getSafe [Val.str "Tag", Val.str "Joined", Val.str "tgid", Val.str "Who",
        Val.str "16.06.24", Val.str "2024-06-16"] j2 ≠ "" ∧
      normalizeDateStr (getSafe [Val.str "Tag", Val.str "Joined", Val.str "tgid",
        Val.str "Who", Val.str "16.06.24", Val.str "2024-06-16"] i2) = iso ∧
      normalizeDateStr (getSafe [Val.str "Tag", Val.str "Joined", Val.str "tgid",
        Val.str "Who", Val.str "16.06.24", Val.str "2024-06-16"] j2) = iso ∧ iso ≠ "" :=
  (c5_duplicate_dates_fatal "T"
    [Val.str "Tag", Val.str "Joined", Val.str "tgid", Val.str "Who",
     Val.str "16.06.24", Val.str "2024-06-16"] [] [] 0 1 3
    (by decide) (by decide) (by decide)).1
    ⟨4, by decide, 5, by decide, by decide, by decide, by decide, by decide, by decide,
     by decide⟩

/-! Claim C6: one fact row per eligible chorister row and retained date
column. -/

theorem sep_append_ne_empty (n j : String) : n ++ " | " ++ j ≠ "" := by
  intro h
  have hd := congrArg String.data h
  rw [sep_append_data] at hd
  simp at hd

theorem dimRun_byKey (nowIso : String) (ti ji wi : ℕ) (gi : Option ℕ)
    (body : List (List Val)) :
    ∀ st : DimSt, (∀ kv ∈ st.byKey, kv.2 ≠ "") →
      (∀ kv ∈ (dimRun nowIso ti ji wi gi st body).byKey, kv.2 ≠ "") ∧
      (∀ k, (∃ v, alGet? st.byKey k = some v) →
        ∃ v, alGet? (dimRun nowIso ti ji wi gi st body).byKey k = some v) ∧
      (∀ t ∈ eligTriples ti ji wi gi body,
        ∃ v, alGet? (dimRun nowIso ti ji wi gi st body).byKey (t.1, t.2.1) = some v) := by
  induction body with
  | nil =>
    intro st h0
    refine ⟨h0, fun k hv => hv, ?_⟩
    intro t ht
    simp [eligTriples] at ht
  | cons row rest ih =>
    intro st h0
    simp only [dimRun]
    by_cases h1 : getSafe row ti = "" ∨ getSafe row ti = "Song"
    · rw [dimStep_skip nowIso ti ji wi gi st row (Or.inl h1)]
      obtain ⟨a, b, c⟩ := ih st h0
      refine ⟨a, b, ?_⟩
      rw [eligTriples_cons_skip ti ji wi gi row rest (Or.inl h1)]
      exact c
    · by_cases h2 : getSafe row wi = ""
      · rw [dimStep_skip nowIso ti ji wi gi st row (Or.inr h2)]
        obtain ⟨a, b, c⟩ := ih st h0
        refine ⟨a, b, ?_⟩
        rw [eligTriples_cons_skip ti ji wi gi row rest (Or.inr h2)]
        exact c
      · have hstep := dimStep_eligible nowIso ti ji wi gi st row h1 h2
        have hcid : (if alGetD st.seen (getSafe row wi) 0 + 1 = 1 then getSafe row wi
            else getSafe row wi ++ " | " ++ getSafe row ji) ≠ "" := by
          by_cases hc : alGetD st.seen (getSafe row wi) 0 + 1 = 1
          · rw [if_pos hc]; exact h2
          · rw [if_neg hc]; exact sep_append_ne_empty _ _
        have h0' : ∀ kv ∈ (dimStep nowIso ti ji wi gi st row).byKey, kv.2 ≠ "" := by
          rw [hstep]
          intro kv hkv
          rcases mem_alInsert _ _ _ kv hkv with hkv1 | hkv1
          · rw [hkv1]; exact hcid
          · exact h0 kv hkv1
        obtain ⟨a, b, c⟩ := ih (dimStep nowIso ti ji wi gi st row) h0'
        have hbk2 : (dimStep nowIso ti ji wi gi st row).byKey =
            alInsert st.byKey (getSafe row wi, getSafe row ji)
              (if alGetD st.seen (getSafe row wi) 0 + 1 = 1 then getSafe row wi
               else getSafe row wi ++ " | " ++ getSafe row ji) := by rw [hstep]
        refine ⟨a, ?_, ?_⟩
        · intro k hk
          refine b k ?_
          obtain ⟨v0, hv0⟩ := hk
          rw [hbk2, alGet?_alInsert]
          by_cases hkk : k = (getSafe row wi, getSafe row ji)
          · exact ⟨_, if_pos hkk⟩
          · exact ⟨v0, by rw [if_neg hkk]; exact hv0⟩
        · rw [eligTriples_cons_keep ti ji wi gi row rest h1 h2]
          intro t ht
          rcases List.mem_cons.mp ht with ht1 | ht1
          · refine b _ ?_
            rw [ht1, hbk2, alGet?_alInsert]
            exact ⟨_, if_pos rfl⟩
          · exact c t ht1

theorem cellsForRow_ok_proj (nowIso cid : String) (row : List Val) :
    ∀ (cols : List (ℕ × String)) (l : List AttendanceFact),
    cellsForRow nowIso cid row cols = .ok l →
    l.map (fun f => (f.choristerId, f.rehearsalDate)) = cols.map (fun c => (cid, c.2)) := by
  intro cols
  induction cols with
  | nil =>
    intro l h
    have : l = [] := by simpa [cellsForRow] using h.symm
    simp [this]
  | cons c rest ih =>
    intro l h
    obtain ⟨ci, iso⟩ := c
    simp only [cellsForRow] at h
    by_cases hemp : cellIsEmpty (match row[ci]? with | some v => v | none => Val.null) = true
    · rw [if_pos hemp] at h
      obtain ⟨l2, hl2, hl⟩ := except_map_ok _ _ l h
      rw [hl]
      simp [ih l2 hl2]
    · rw [if_neg hemp] at h
      rcases hp : parseHoursStrict (match row[ci]? with | some v => v | none => Val.null)
          cid iso with e | hval
      · rw [hp] at h; simp at h
      · rw [hp] at h
        obtain ⟨l2, hl2, hl⟩ := except_map_ok _ _ l h
        rw [hl]
        simp [ih l2 hl2]

theorem attRowsLoop_ok_proj (nowIso : String) (ti ji wi : ℕ) (gi : Option ℕ)
    (byKey : List ((String × String) × String)) (dateCols : List (ℕ × String)) :
    ∀ (body : List (List Val)) (facts : List AttendanceFact),
    (∀ t ∈ eligTriples ti ji wi gi body,
      ∃ v, alGet? byKey (t.1, t.2.1) = some v ∧ v ≠ "") →
    attRowsLoop nowIso ti ji wi byKey dateCols body = .ok facts →
    facts.map (fun f => (f.choristerId, f.rehearsalDate)) =
      (eligTriples ti ji wi gi body).flatMap
        (fun t => dateCols.map (fun c => ((alGet? byKey (t.1, t.2.1)).getD "", c.2))) := by
  intro body
  induction body with
  | nil =>
    intro facts _ h
    have : facts = [] := by simpa [attRowsLoop] using h.symm
    simp [this, eligTriples]
  | cons row rest ih =>
    intro facts hcov h
    simp only [attRowsLoop] at h
    by_cases h1 : getSafe row ti = "" ∨ getSafe row ti = "Song"
    · rw [if_pos h1] at h
      rw [eligTriples_cons_skip ti ji wi gi row rest (Or.inl h1)]
      refine ih facts ?_ h
      rw [eligTriples_cons_skip ti ji wi gi row rest (Or.inl h1)] at hcov
      exact hcov
    · rw [if_neg h1] at h
      by_cases h2 : getSafe row wi = ""
      · rw [if_pos h2] at h
        rw [eligTriples_cons_skip ti ji wi gi row rest (Or.inr h2)]
        refine ih facts ?_ h
        rw [eligTriples_cons_skip ti ji wi gi row rest (Or.inr h2)] at hcov
        exact hcov
      · rw [if_neg h2] at h
        rw [eligTriples_cons_keep ti ji wi gi row rest h1 h2] at hcov ⊢
        have hhead := hcov _ (List.mem_cons_self _ _)
        obtain ⟨v, hv, hvne⟩ := hhead
        rw [hv] at h
        simp only [if_neg hvne] at h
        rcases hcf : cellsForRow nowIso v row dateCols with e | fs
        · rw [hcf] at h; simp at h
        · rw [hcf] at h
          obtain ⟨l2, hl2, hl⟩ := except_map_ok _ _ facts h
          rw [hl, List.map_append,
            cellsForRow_ok_proj nowIso v row dateCols fs hcf,
            ih l2 (fun t ht => hcov t (List.mem_cons_of_mem _ ht)) hl2]
          simp [List.flatMap_cons, hv]

/-- Claim C6: when the attendance builder is fed the chorister-id index
built from the same wide input (as the pipeline does) and succeeds,
every eligible chorister row produces exactly one fact row per retained
date column, in order — no eligible row's cell is skipped: the
(chorister id, rehearsal date) projection of the output equals the
eligible-rows by retained-columns product. -/
theorem c6_one_fact_per_cell (nowIso nowIso2 : String) (header : List Val)
    (body : List (List Val)) (ti ji wi : ℕ)
    (hti : indexOfName header "Tag" = some ti)
    (hji : indexOfName header "Joined" = some ji)
    (hwi : indexOfName header "Who" = some wi)
    (facts : List AttendanceFact)
    (hok : buildFactAttendance nowIso2 (header :: body)
      (buildDimChorister nowIso (header :: body)).2.1 = .ok facts) :
    ∃ dateCols, scanCols header (List.range' 4 (header.length - 4)) [] = .ok dateCols ∧
      facts.map (fun f => (f.choristerId, f.rehearsalDate)) =
        (eligTriples ti ji wi (indexOfName header "tgid") body).flatMap
          (fun t => dateCols.map (fun c =>
            ((alGet? (buildDimChorister nowIso (header :: body)).2.1 (t.1, t.2.1)).getD "",
              c.2))) := by
  have hbk : (buildDimChorister nowIso (header :: body)).2.1 =
      (dimRun nowIso ti ji wi (indexOfName header "tgid") ⟨[], [], [], []⟩ body).byKey := by
    simp [buildDimChorister, hti, hji, hwi]
  simp only [buildFactAttendance, hti, hji, hwi] at hok
  rcases hscan : scanCols header (List.range' 4 (header.length - 4)) [] with e | dateCols
  · rw [hscan] at hok; simp at hok
  · rw [hscan] at hok
    refine ⟨dateCols, rfl, ?_⟩
    have hcov : ∀ t ∈ eligTriples ti ji wi (indexOfName header "tgid") body,
        ∃ v, alGet? (buildDimChorister nowIso (header :: body)).2.1 (t.1, t.2.1) = some v ∧
          v ≠ "" := by
      intro t ht
      rw [hbk]
      obtain ⟨hall, _, hcover⟩ :=
        dimRun_byKey nowIso ti ji wi (indexOfName header "tgid") body ⟨[], [], [], []⟩
          (by intro kv hkv; simp at hkv)
      obtain ⟨v, hv⟩ := hcover t ht
      exact ⟨v, hv, hall (_, v) (alGet?_some_mem _ _ _ hv)⟩
    rw [hbk] at hcov hok ⊢
    exact attRowsLoop_ok_proj nowIso2 ti ji wi (indexOfName header "tgid") _ dateCols body
      facts hcov hok

/-- Witness for claim C6 at a concrete input (one eligible row, one
retained date column, empty attendance cell). -/
theorem c6_witness :
    ∃ dateCols, scanCols [Val.str "Tag", Val.str "Joined", Val.str "tgid", Val.str "Who",
        Val.str "16.06.24"] (List.range' 4 1) [] = .ok dateCols ∧
      ([AttendanceFact.mk "2024-06-16" "Ann" 0 1 "T2"]).map
        (fun f => (f.choristerId, f.rehearsalDate)) =
        (eligTriples 0 1 3 (indexOfName [Val.str "Tag", Val.str "Joined", Val.str "tgid",
            Val.str "Who", Val.str "16.06.24"] "tgid")
          [[Val.str "alto", Val.str "01.01.24", Val.null, Val.str "Ann", Val.null]]).flatMap
          (fun t => dateCols.map (fun c =>
            ((alGet? (buildDimChorister "T"
              ([Val.str "Tag", Val.str "Joined", Val.str "tgid", Val.str "Who",
                Val.str "16.06.24"] ::
               [[Val.str "alto", Val.str "01.01.24", Val.null, Val.str "Ann", Val.null]])).2.1
              (t.1, t.2.1)).getD "", c.2))) :=
  c6_one_fact_per_cell "T" "T2"
    [Val.str "Tag", Val.str "Joined", Val.str "tgid", Val.str "Who", Val.str "16.06.24"]
    [[Val.str "alto", Val.str "01.01.24", Val.null, Val.str "Ann", Val.null]]
    0 1 3 (by decide) (by decide) (by decide)
    [AttendanceFact.mk "2024-06-16" "Ann" 0 1 "T2"] (by decide)

/-! Claim C1: the temporal-resolution primitive. -/

theorem lexLt_nlt_trans : ∀ {a b c : List Char}, lexLt a b = false → lexLt b c = false →
    lexLt a c = false := by
  intro a
  induction a with
  | nil =>
    intro b c hab hbc
    cases b with
    | nil =>
      cases c with
      | nil => rfl
      | cons z zs => simp [lexLt] at hbc
    | cons y ys => simp [lexLt] at hab
  | cons x xs ih =>
    intro b c hab hbc
    cases c with
    | nil => rfl
    | cons z zs =>
      cases b with
      | nil => simp [lexLt] at hbc
      | cons y ys =>
        simp only [lexLt] at hab hbc ⊢
        by_cases hxy : x.toNat < y.toNat
        · simp [hxy] at hab
        · simp only [if_neg hxy] at hab
          by_cases hyz : y.toNat < z.toNat
          · simp [hyz] at hbc
          · simp only [if_neg hyz] at hbc
            by_cases hyx : y.toNat < x.toNat
            · have hzx : z.toNat < x.toNat := by
                by_cases hzy : z.toNat < y.toNat
                · omega
                · have : y.toNat = z.toNat := by omega
                  omega
              have hnxz : ¬ x.toNat < z.toNat := by omega
              simp [hnxz, hzx]
            · have hxy2 : x.toNat = y.toNat := by omega
              by_cases hzy : z.toNat < y.toNat
              · have hzx : z.toNat < x.toNat := by omega
                have hnxz : ¬ x.toNat < z.toNat := by omega
                simp [hnxz, hzx]
              · have hyz2 : y.toNat = z.toNat := by omega
                have hn1 : ¬ x.toNat < z.toNat := by omega
                have hn2 : ¬ z.toNat < x.toNat := by omega
                simp only [if_neg hn1, if_neg hn2]
                simp only [if_neg hyx] at hab
                simp only [if_neg hzy] at hbc
                exact ih hab hbc

theorem strLt_nlt_trans {a b c : String} (hab : strLt a b = false) (hbc : strLt b c = false) :
    strLt a c = false := lexLt_nlt_trans hab hbc

theorem bool_eq_false {b : Bool} (h : ¬ b = true) : b = false := by
  cases b
  · rfl
  · exact absurd rfl h

theorem foldl_max_spec : ∀ (cs : List (String × String)) (c : String × String),
    (cs.foldl (fun best x => if strLt best.1 x.1 then x else best) c = c ∨
      cs.foldl (fun best x => if strLt best.1 x.1 then x else best) c ∈ cs) ∧
    strLt (cs.foldl (fun best x => if strLt best.1 x.1 then x else best) c).1 c.1 = false ∧
    ∀ x ∈ cs,
      strLt (cs.foldl (fun best x => if strLt best.1 x.1 then x else best) c).1 x.1 = false := by
  intro cs
  induction cs with
  | nil =>
    intro c
    exact ⟨Or.inl rfl, strLt_irrefl c.1, by simp⟩
  | cons x cs2 ih =>
    intro c
    simp only [List.foldl_cons]
    by_cases hcx : strLt c.1 x.1 = true
    · rw [if_pos hcx]
      obtain ⟨hmem, hc2, hall⟩ := ih x
      refine ⟨?_, ?_, ?_⟩
      · rcases hmem with h | h
        · exact Or.inr (List.mem_cons.mpr (Or.inl h))
        · exact Or.inr (List.mem_cons.mpr (Or.inr h))
      · by_cases hmc : strLt
            (cs2.foldl (fun best x => if strLt best.1 x.1 then x else best) x).1 c.1 = true
        · exact absurd (strLt_trans hmc hcx) (by simp [hc2])
        · exact bool_eq_false hmc
      · intro y hy
        rcases List.mem_cons.mp hy with hy1 | hy1
        · rw [hy1]; exact hc2
        · exact hall y hy1
    · have hcx2 : strLt c.1 x.1 = false := bool_eq_false hcx
      rw [if_neg hcx]
      obtain ⟨hmem, hc2, hall⟩ := ih c
      refine ⟨?_, hc2, ?_⟩
      · rcases hmem with h | h
        · exact Or.inl h
        · exact Or.inr (List.mem_cons.mpr (Or.inr h))
      · intro y hy
        rcases List.mem_cons.mp hy with hy1 | hy1
        · rw [hy1]
          exact strLt_nlt_trans hc2 hcx2
        · exact hall y hy1

theorem pickMax_spec (l : List (String × String)) (m : String × String)
    (h : pickMax l = some m) : m ∈ l ∧ ∀ x ∈ l, strLt m.1 x.1 = false := by
  cases l with
  | nil => simp [pickMax] at h
  | cons c cs =>
    have hm : m = cs.foldl (fun best x => if strLt best.1 x.1 then x else best) c := by
      simpa [pickMax] using h.symm
    obtain ⟨hmem, hc, hall⟩ := foldl_max_spec cs c
    subst hm
    refine ⟨?_, ?_⟩
    · rcases hmem with h1 | h1
      · exact List.mem_cons.mpr (Or.inl h1)
      · exact List.mem_cons.mpr (Or.inr h1)
    · intro x hx
      rcases List.mem_cons.mp hx with hx1 | hx1
      · rw [hx1]; exact hc
      · exact hall x hx1

theorem filterMap_eq_map_filter {α β : Type} (g : α → Option β) (p : α → Bool) (f : α → β) :
    ∀ (l : List α), (∀ a ∈ l, g a = if p a then some (f a) else none) →
    l.filterMap g = (l.filter p).map f := by
  intro l
  induction l with
  | nil => intro _; rfl
  | cons x xs ih =>
    intro h
    rw [List.filterMap_cons, List.filter_cons, h x (List.mem_cons_self x xs)]
    by_cases hp : p x
    · rw [if_pos hp, if_pos hp, List.map_cons, ih (fun a ha => h a (List.mem_cons_of_mem x ha))]
    · rw [if_neg hp, if_neg hp, ih (fun a ha => h a (List.mem_cons_of_mem x ha))]

theorem voiceCandidate_eq_spec (cid rdIso : String) (a : AssignmentDictRow)
    (hvf : safeStr a.chorister_id = cid → normalizeDate a.valid_from ≠ "")
    (hvt : safeStr a.chorister_id = cid →
      safeStr (valOr a.valid_to (.str "")) = "" ∨
      normalizeDateStr (safeStr (valOr a.valid_to (.str ""))) ≠ "") :
    voiceCandidate cid rdIso a = if specQualifiesB cid rdIso a then
      some (normalizeDate a.valid_from, safeStr a.voice_part) else none := by
  by_cases hc : safeStr a.chorister_id = cid
  · have hvf2 := hvf hc
    simp only [voiceCandidate, if_neg (not_not_intro hc)]
    rw [if_neg hvf2]
    by_cases hlt : strLt rdIso (normalizeDate a.valid_from) = true
    · rw [if_pos hlt]
      have hq : specQualifiesB cid rdIso a = false := by
        simp [specQualifiesB, hlt]
      rw [hq]
      simp
    · have hlt2 : strLt rdIso (normalizeDate a.valid_from) = false := bool_eq_false hlt
      rw [if_neg hlt]
      by_cases hvtc : safeStr (valOr a.valid_to (.str "")) ≠ "" ∧
          normalizeDateStr (safeStr (valOr a.valid_to (.str ""))) ≠ "" ∧
          strLt (normalizeDateStr (safeStr (valOr a.valid_to (.str "")))) rdIso = true
      · rw [if_pos hvtc]
        have hq : specQualifiesB cid rdIso a = false := by
          simp only [specQualifiesB, hc, hlt2]
          simp [hvtc.1, hvtc.2.2]
        rw [hq]
        simp
      · rw [if_neg hvtc]
        have hq : specQualifiesB cid rdIso a = true := by
          simp only [specQualifiesB, hc, hlt2]
          by_cases hve : safeStr (valOr a.valid_to (.str "")) = ""
          · simp [hve]
          · rcases hvt hc with hv1 | hv1
            · exact absurd hv1 hve
            · have hns : strLt (normalizeDateStr (safeStr (valOr a.valid_to (.str "")))) rdIso
                  = false := by
                cases h : strLt (normalizeDateStr (safeStr (valOr a.valid_to (.str "")))) rdIso
                · rfl
                · exact absurd ⟨hve, hv1, h⟩ hvtc
              simp [hve, hns]
        rw [hq]
        simp
  · have hq : specQualifiesB cid rdIso a = false := by
      simp [specQualifiesB, hc]
    simp only [voiceCandidate, if_pos hc, hq]
    simp

/-- Claim C1: among the chorister's assignment intervals whose
(normalized) valid_from is not after the date and whose valid_to is
empty or (normalized) not before the date, the temporal join returns
the voice part of one with maximal valid_from, and the empty string
when none qualifies (dates assumed normalizable, as produced by the
pipeline); on the worked override example it returns soprano on
2024-07-20, alto on 2024-11-15, and the empty string on any date before
2024-06-16. -/
theorem c1_voice_part_for_date (cid rdIso : String) (assigns : List AssignmentDictRow)
    (hrd : rdIso ≠ "")
    (hvf : ∀ a ∈ assigns, safeStr a.chorister_id = cid → normalizeDate a.valid_from ≠ "")
    (hvt : ∀ a ∈ assigns, safeStr a.chorister_id = cid →
      safeStr (valOr a.valid_to (.str "")) = "" ∨
      normalizeDateStr (safeStr (valOr a.valid_to (.str ""))) ≠ "") :
    (assigns.filter (specQualifiesB cid rdIso) = [] →
      getVoicePartForDate cid rdIso assigns = "") ∧
    (assigns.filter (specQualifiesB cid rdIso) ≠ [] →
      ∃ a ∈ assigns.filter (specQualifiesB cid rdIso),
        (∀ b ∈ assigns.filter (specQualifiesB cid rdIso),
          strLt (normalizeDate a.valid_from) (normalizeDate b.valid_from) = false) ∧
        getVoicePartForDate cid rdIso assigns = safeStr a.voice_part) ∧
    getVoicePartForDate "M" "2024-07-20" exOverrideAssigns = "soprano" ∧
    getVoicePartForDate "M" "2024-11-15" exOverrideAssigns = "alto" ∧
    (∀ d, strLt d "2024-06-16" = true → getVoicePartForDate "M" d exOverrideAssigns = "") := by
  have hcand : assigns.filterMap (voiceCandidate cid rdIso) =
      (assigns.filter (specQualifiesB cid rdIso)).map
        (fun a => (normalizeDate a.valid_from, safeStr a.voice_part)) :=
    filterMap_eq_map_filter _ _ _ assigns
      (fun a ha => voiceCandidate_eq_spec cid rdIso a (hvf a ha) (hvt a ha))
  refine ⟨?_, ?_, by decide, by decide, ?_⟩
  · intro hq
    simp [getVoicePartForDate, if_neg hrd, hcand, hq, pickMax]
  · intro hq
    rcases hpick : pickMax (assigns.filterMap (voiceCandidate cid rdIso)) with _ | m
    · rw [hcand] at hpick
      rcases hfl : assigns.filter (specQualifiesB cid rdIso) with _ | ⟨a0, rest⟩
      · exact absurd hfl hq
      · rw [hfl] at hpick
        simp [pickMax] at hpick
    · obtain ⟨hmem, hmax⟩ := pickMax_spec _ m hpick
      rw [hcand] at hmem hmax
      obtain ⟨a, ha, hae⟩ := List.mem_map.mp hmem
      refine ⟨a, ha, ?_, ?_⟩
      · intro b hb
        have := hmax _ (List.mem_map.mpr ⟨b, hb, rfl⟩)
        rw [← hae] at this
        exact this
      · simp only [getVoicePartForDate, if_neg hrd, hpick]
        rw [← hae]
  · intro d hd
    by_cases hd0 : d = ""
    · simp [getVoicePartForDate, hd0]
    · have e2 : normalizeDate (Val.str "16.06.24") = "2024-06-16" := by decide
      have e3 : normalizeDate (Val.str "02.10.24") = "2024-10-02" := by decide
      have hd2 : strLt d "2024-10-02" = true :=
        strLt_trans hd (show strLt "2024-06-16" "2024-10-02" = true by decide)
      simp only [getVoicePartForDate, if_neg hd0, exOverrideAssigns,
        List.filterMap_cons, List.filterMap_nil, voiceCandidate, e2, e3]
      simp [hd, hd2, pickMax]

/-- Witness for claim C1 using its fifth conjunct at a concrete date. -/
theorem c1_witness : getVoicePartForDate "M" "2024-05-01" exOverrideAssigns = "" :=
  (c1_voice_part_for_date "M" "2024-05-01" exOverrideAssigns (by decide)
    (by intro a ha _; fin_cases ha <;> decide)
    (by intro a ha _; fin_cases ha <;> decide)).2.2.2.2 "2024-05-01" (by decide)

/-! Claim C9: the availability flag of mart_attendance. -/

theorem jdia_ok (byId : List (String × ChoristerDictRow)) (fa : FactAttDictRow)
    (hnb : ¬ specBadJoined byId fa) :
    joinedDateIsoForAvailable (alGet? byId (safeStr fa.chorister_id))
      (safeStr fa.chorister_id) = .ok (specJoinedIso byId (safeStr fa.chorister_id)) := by
  have h0 : safeStr Val.null = "" := rfl
  rcases hch : alGet? byId (safeStr fa.chorister_id) with _ | c
  · simp [joinedDateIsoForAvailable, specJoinedIso, hch, h0]
  · by_cases hje : safeStr c.joined_date = ""
    · simp [joinedDateIsoForAvailable, specJoinedIso, hch, hje]
    · by_cases hjn : normalizeDate c.joined_date = ""
      · exact absurd ⟨c, hch, hje, hjn⟩ hnb
      · simp [joinedDateIsoForAvailable, specJoinedIso, hch, hje, hjn]

theorem jdia_error (byId : List (String × ChoristerDictRow)) (fa : FactAttDictRow)
    (hb : specBadJoined byId fa) :
    ∃ c, alGet? byId (safeStr fa.chorister_id) = some c ∧
      joinedDateIsoForAvailable (alGet? byId (safeStr fa.chorister_id))
        (safeStr fa.chorister_id) =
        .error (.invalidJoinedDate (safeStr fa.chorister_id) c.joined_date) := by
  obtain ⟨c, hch, hje, hjn⟩ := hb
  exact ⟨c, hch, by simp [joinedDateIsoForAvailable, hch, hje, hjn]⟩

theorem martRowFor_spec (byId : List (String × ChoristerDictRow))
    (assigns : List AssignmentDictRow) (fa : FactAttDictRow) :
    (specBadJoined byId fa → ∃ c, alGet? byId (safeStr fa.chorister_id) = some c ∧
      martRowFor byId assigns fa =
        .error (.invalidJoinedDate (safeStr fa.chorister_id) c.joined_date)) ∧
    (¬ specBadJoined byId fa → ∃ r, martRowFor byId assigns fa = .ok r ∧
      r.availableFlag = (if specJoinedIso byId (safeStr fa.chorister_id) ≠ "" ∧
        strLt (martRdIso fa) (specJoinedIso byId (safeStr fa.chorister_id)) = false
        then 1 else 0)) := by
  constructor
  · intro hbad
    obtain ⟨c, hch, herr⟩ := jdia_error byId fa hbad
    refine ⟨c, hch, ?_⟩
    simp only [martRowFor, herr]
  · intro hnb
    have hok := jdia_ok byId fa hnb
    rcases hm : martRowFor byId assigns fa with e | r
    · simp only [martRowFor, hok] at hm
      exact absurd hm (by simp)
    · refine ⟨r, rfl, ?_⟩
      simp only [martRowFor, hok] at hm
      have hr := Except.ok.inj hm
      rw [← hr]
      rfl

theorem martRowsLoop_all_ok (byId : List (String × ChoristerDictRow))
    (assigns : List AssignmentDictRow) :
    ∀ facts : List FactAttDictRow, (∀ fa ∈ facts, ¬ specBadJoined byId fa) →
    ∃ rows, martRowsLoop byId assigns facts = .ok rows ∧ rows.length = facts.length ∧
      List.Forall₂ (fun (r : MartAttRow) (fa : FactAttDictRow) =>
        r.availableFlag = (if specJoinedIso byId (safeStr fa.chorister_id) ≠ "" ∧
          strLt (martRdIso fa) (specJoinedIso byId (safeStr fa.chorister_id)) = false
          then 1 else 0)) rows facts := by
  intro facts
  induction facts with
  | nil => intro _; exact ⟨[], rfl, rfl, List.Forall₂.nil⟩
  | cons fa rest ih =>
    intro hok
    obtain ⟨r, hr, hflag⟩ :=
      (martRowFor_spec byId assigns fa).2 (hok fa (List.mem_cons_self fa rest))
    obtain ⟨rows, hrows, hlen, hfa⟩ := ih (fun g hg => hok g (List.mem_cons_of_mem fa hg))
    refine ⟨r :: rows, ?_, by simp [hlen], List.Forall₂.cons hflag hfa⟩
    simp only [martRowsLoop, hr, hrows]
    rfl

theorem martRowsLoop_bad_error (byId : List (String × ChoristerDictRow))
    (assigns : List AssignmentDictRow) :
    ∀ facts : List FactAttDictRow, (∃ fa ∈ facts, specBadJoined byId fa) →
    ∃ fa ∈ facts, specBadJoined byId fa ∧
      ∃ c, alGet? byId (safeStr fa.chorister_id) = some c ∧
        martRowsLoop byId assigns facts =
          .error (.invalidJoinedDate (safeStr fa.chorister_id) c.joined_date) := by
  intro facts
  induction facts with
  | nil => intro h; simp at h
  | cons fa rest ih =>
    intro hex
    by_cases hbad : specBadJoined byId fa
    · obtain ⟨c, hc, herr⟩ := (martRowFor_spec byId assigns fa).1 hbad
      refine ⟨fa, List.mem_cons_self fa rest, hbad, c, hc, ?_⟩
      simp only [martRowsLoop, herr]
    · obtain ⟨g, hg, hgbad⟩ := hex
      have hgr : g ∈ rest := by
        rcases List.mem_cons.mp hg with h1 | h1
        · exact absurd (h1 ▸ hgbad) hbad
        · exact h1
      obtain ⟨g2, hg2, hg2bad, c, hc, herr⟩ := ih ⟨g, hgr, hgbad⟩
      obtain ⟨r, hr, _⟩ := (martRowFor_spec byId assigns fa).2 hbad
      refine ⟨g2, List.mem_cons_of_mem fa hg2, hg2bad, c, hc, ?_⟩
      simp only [martRowsLoop, hr, herr]
      rfl

/-- Claim C9: in mart_attendance the available flag is 1 exactly when
the chorister's joined date is known, normalizable and not after the
rehearsal date (both as ISO strings); a chorister with an empty joined
date, or an unknown chorister, always yields 0; a present but
unnormalizable joined date makes the whole build raise the
invalid-joined-date error naming that chorister, never a silent 0. -/
theorem c9_available_flag (dimCh : List ChoristerDictRow)
    (assigns : List AssignmentDictRow) (facts : List FactAttDictRow) :
    ((∀ fa ∈ facts, ¬ specBadJoined (buildById dimCh) fa) →
      ∃ rows, buildMartAttendance dimCh assigns facts = .ok rows ∧
        rows.length = facts.length ∧
        List.Forall₂ (fun (r : MartAttRow) (fa : FactAttDictRow) =>
          r.availableFlag = (if specJoinedIso (buildById dimCh) (safeStr fa.chorister_id) ≠ "" ∧
            strLt (martRdIso fa) (specJoinedIso (buildById dimCh) (safeStr fa.chorister_id))
              = false then 1 else 0)) rows facts) ∧
    ((∃ fa ∈ facts, specBadJoined (buildById dimCh) fa) →
      ∃ fa ∈ facts, specBadJoined (buildById dimCh) fa ∧
        ∃ c, alGet? (buildById dimCh) (safeStr fa.chorister_id) = some c ∧
          buildMartAttendance dimCh assigns facts =
            .error (.invalidJoinedDate (safeStr fa.chorister_id) c.joined_date)) :=
  ⟨martRowsLoop_all_ok (buildById dimCh) assigns facts,
   martRowsLoop_bad_error (buildById dimCh) assigns facts⟩

/-- Witness for claim C9 at a concrete fact table whose chorister has an
unnormalizable joined date. -/
theorem c9_witness :
    ∃ fa ∈ exBadJoinedFacts, specBadJoined (buildById exBadJoinedDim) fa ∧
      ∃ c, alGet? (buildById exBadJoinedDim) (safeStr fa.chorister_id) = some c ∧
        buildMartAttendance exBadJoinedDim [] exBadJoinedFacts =
          .error (.invalidJoinedDate (safeStr fa.chorister_id) c.joined_date) :=
  (c9_available_flag exBadJoinedDim [] exBadJoinedFacts).2
    ⟨{ rehearsal_date := .str "2024-06-16", chorister_id := .str "Ann",
       hours_attended := .num 2, missed_flag := .num 0, load_ts := .str "t" },
     by decide,
     ⟨{ chorister_id := .str "Ann", tgid := .str "", full_name := .str "Ann",
        joined_date := .str "junk", created_at := .str "t", updated_at := .str "t" },
      by decide, by decide, by decide⟩⟩

end ChoirEtl
